import Mathlib

/-!
Verification of the JSP debug source-mapping subsystem of `vscode-jsp-lang`.

The development shallowly embeds the subsystem's core:
* the Tomcat/Jasper marker line format recognized by
  `parseTomcatGeneratedJavaMarkers` (tomcatJspSourceMap);
* the compiled-line → template-line floor search `mapJavaLineToJsp`;
* the template-line → compiled-line forward search `mapJspLineToJavaLine`
  of the breakpoint translator;
* the `GeneratedJavaMarkerCache` (fingerprint, debounce, LRU);
* the stack-trace response rewriter and the setBreakpoints
  response handler, with the filesystem and path-resolution steps
  abstracted as oracle functions (the subsystem is single-threaded and
  message-driven, so one message sees a fixed filesystem snapshot).

All definitions are executable; machine integers of the source are modelled
as `Nat`/`Int` (times are `Int` milliseconds).
-/

/-- A parsed marker comment of a generated servlet source:
`javaLine` is the 1-based line of the comment in the generated `.java`
file, `jspLine`/`jspFile` are the template coordinates it names. -/
structure TomcatJspMarker where
  javaLine : Nat
  jspLine : Nat
  jspFile : Option String
deriving DecidableEq, Repr, Inhabited

/-- JavaScript's regex whitespace class `\s`. -/
def isJsSpace (c : Char) : Bool :=
  c.toNat = 0x20 || c.toNat = 0x09 || c.toNat = 0x0a || c.toNat = 0x0d ||
  c.toNat = 0x0b || c.toNat = 0x0c || c.toNat = 0xa0 || c.toNat = 0x1680 ||
  (0x2000 ≤ c.toNat && c.toNat ≤ 0x200a) || c.toNat = 0x2028 || c.toNat = 0x2029 ||
  c.toNat = 0x202f || c.toNat = 0x205f || c.toNat = 0x3000 || c.toNat = 0xfeff

/-- Splitting a character stream on the regex `\r?\n` (the `split` call of
`parseTomcatGeneratedJavaMarkers`), accumulator-style. -/
def splitLinesAux : List Char → List Char → List (List Char)
  | [], acc => [acc.reverse]
  | '\r' :: '\n' :: rest, acc => acc.reverse :: splitLinesAux rest []
  | '\n' :: rest, acc => acc.reverse :: splitLinesAux rest []
  | c :: rest, acc => splitLinesAux rest (c :: acc)

/-- `text.split(/\r?\n/)` on the underlying character list. -/
def splitLines (cs : List Char) : List (List Char) :=
  splitLinesAux cs []

/-- Case-insensitive literal match: consumes `lit` from `cs`, returns the rest. -/
def expectCI : List Char → List Char → Option (List Char)
  | [], rest => some rest
  | _ :: _, [] => none
  | l :: lt, c :: ct => if c.toLower = l.toLower then expectCI lt ct else none

/-- Case-sensitive literal match: consumes `lit` from `cs`, returns the rest. -/
def expectLit : List Char → List Char → Option (List Char)
  | [], rest => some rest
  | _ :: _, [] => none
  | l :: lt, c :: ct => if c = l then expectLit lt ct else none

/-- Greedy `(\d+)`: at least one ASCII digit. -/
def takeDigits1 (cs : List Char) : Option (List Char × List Char) :=
  let ds := cs.takeWhile Char.isDigit
  if ds.isEmpty then none else some (ds, cs.dropWhile Char.isDigit)

/-- `\s+`: at least one JS whitespace character, greedily consumed. -/
def dropSpaces1 (cs : List Char) : Option (List Char) :=
  match cs with
  | [] => none
  | c :: t => if isJsSpace c then some ((c :: t).dropWhile isJsSpace) else none

/-- `"([^"]+)"`: a quote, at least one non-quote character, a quote. -/
def readQuoted (cs : List Char) : Option (List Char × List Char) :=
  match cs with
  | '"' :: rest =>
    let content := rest.takeWhile (fun c => c ≠ '"')
    match rest.dropWhile (fun c => c ≠ '"') with
    | '"' :: tail => if content.isEmpty then none else some (content, tail)
    | _ => none
  | _ => none

/-- Decimal digit run to a number (the `Number.parseInt(_, 10)` of the source;
the digits come from `\d+` so the parse always succeeds). -/
def digitsToNat (ds : List Char) : Nat :=
  ds.foldl (fun n c => n * 10 + (c.toNat - 48)) 0

/-- Pattern 1 of the parser: `^\s*\/\/\s*line\s*(\d+)\s+"([^"]+)"\s*$` (`/i`). -/
def markerPat1 (cs : List Char) : Option (Nat × Option String) := do
  let cs := cs.dropWhile isJsSpace
  let cs ← expectLit ['/', '/'] cs
  let cs := cs.dropWhile isJsSpace
  let cs ← expectCI ['l', 'i', 'n', 'e'] cs
  let cs := cs.dropWhile isJsSpace
  let (ds, cs) ← takeDigits1 cs
  let cs ← dropSpaces1 cs
  let (content, cs) ← readQuoted cs
  let cs := cs.dropWhile isJsSpace
  if cs.isEmpty then some (digitsToNat ds, some (String.mk content)) else none

/-- Pattern 2: `^\s*\/\/\s*line\s*(\d+)\s+"([^"]+)"\s*\*\/?\s*$` (`/i`). -/
def markerPat2 (cs : List Char) : Option (Nat × Option String) := do
  let cs := cs.dropWhile isJsSpace
  let cs ← expectLit ['/', '/'] cs
  let cs := cs.dropWhile isJsSpace
  let cs ← expectCI ['l', 'i', 'n', 'e'] cs
  let cs := cs.dropWhile isJsSpace
  let (ds, cs) ← takeDigits1 cs
  let cs ← dropSpaces1 cs
  let (content, cs) ← readQuoted cs
  let cs := cs.dropWhile isJsSpace
  let cs ← expectLit ['*'] cs
  let cs := match cs with
    | '/' :: t => t
    | t => t
  let cs := cs.dropWhile isJsSpace
  if cs.isEmpty then some (digitsToNat ds, some (String.mk content)) else none

/-- Pattern 3: `^\s*\/\/\s*(\d+)\s+"([^"]+)"\s*$` (`/i`). -/
def markerPat3 (cs : List Char) : Option (Nat × Option String) := do
  let cs := cs.dropWhile isJsSpace
  let cs ← expectLit ['/', '/'] cs
  let cs := cs.dropWhile isJsSpace
  let (ds, cs) ← takeDigits1 cs
  let cs ← dropSpaces1 cs
  let (content, cs) ← readQuoted cs
  let cs := cs.dropWhile isJsSpace
  if cs.isEmpty then some (digitsToNat ds, some (String.mk content)) else none

/-- Pattern 4: `^\s*\/\/\s*line\s*(\d+)\s*$` (`/i`), the bare form without a
file reference. -/
def markerPat4 (cs : List Char) : Option (Nat × Option String) := do
  let cs := cs.dropWhile isJsSpace
  let cs ← expectLit ['/', '/'] cs
  let cs := cs.dropWhile isJsSpace
  let cs ← expectCI ['l', 'i', 'n', 'e'] cs
  let cs := cs.dropWhile isJsSpace
  let (ds, cs) ← takeDigits1 cs
  let cs := cs.dropWhile isJsSpace
  if cs.isEmpty then some (digitsToNat ds, none) else none

/-- Pattern 5: `^\s*\/\/\s*(\d+)\s*$` (`/i`), bare number form. -/
def markerPat5 (cs : List Char) : Option (Nat × Option String) := do
  let cs := cs.dropWhile isJsSpace
  let cs ← expectLit ['/', '/'] cs
  let cs := cs.dropWhile isJsSpace
  let (ds, cs) ← takeDigits1 cs
  let cs := cs.dropWhile isJsSpace
  if cs.isEmpty then some (digitsToNat ds, none) else none

/-- The fixed ordered pattern list of `parseTomcatGeneratedJavaMarkers`. -/
def markerPatterns : List (List Char → Option (Nat × Option String)) :=
  [markerPat1, markerPat2, markerPat3, markerPat4, markerPat5]

/-- Per-line matching: the first pattern in `markerPatterns` that matches wins
(the inner `for (const p of patterns) { ...; break; }` loop). -/
def matchMarkerLine (cs : List Char) : Option (Nat × Option String) :=
  List.findSome? (fun p => p cs) markerPatterns

/-- `parseTomcatGeneratedJavaMarkers`: split into lines, match each line
against the pattern list, keep at most one marker per line, with
`javaLine` the 1-based line index. -/
def parseTomcatGeneratedJavaMarkers (javaSourceText : String) : List TomcatJspMarker :=
  let lines := splitLines javaSourceText.data
  lines.enum.filterMap fun p =>
    (matchMarkerLine p.2).map fun r => { javaLine := p.1 + 1, jspLine := r.1, jspFile := r.2 }

/-- The binary-search loop of `mapJavaLineToJsp` (`lo`/`hi`/`best` state;
`break` on an exact hit is modelled by returning immediately).  The indices
stay inside the array whenever `0 ≤ lo`, `hi < markers.length` — the out-of-range
`getD` default is never consulted under the preconditions of the lemmas below. -/
def mapLoop (markers : List TomcatJspMarker) (javaLine : Nat) (lo hi : Int)
    (best : Option TomcatJspMarker) : Option TomcatJspMarker :=
  if _h : lo ≤ hi then
    let mid : Int := (lo + hi) / 2
    let m := markers.getD mid.toNat default
    if m.javaLine = javaLine then some m
    else if m.javaLine < javaLine then mapLoop markers javaLine (mid + 1) hi (some m)
    else mapLoop markers javaLine lo (mid - 1) best
  else best
termination_by (hi + 1 - lo).toNat
decreasing_by
  all_goals omega

/-- `mapJavaLineToJsp`: floor search for the most recent marker at or before
the queried generated-source line. -/
def mapJavaLineToJsp (markers : List TomcatJspMarker) (javaLine : Nat) :
    Option (Nat × Option String) :=
  if markers.length = 0 then none
  else
    match mapLoop markers javaLine 0 ((markers.length : Int) - 1) none with
    | none => none
    | some m => some (m.jspLine, m.jspFile)

/-- `p.replace(/\\/g, '/')`: normalize backslashes to forward slashes. -/
def normSlash (s : String) : String :=
  String.mk (s.data.map fun c => if c = '\\' then '/' else c)

/-- ASCII-fold a string to lower case (the effect of a `/i` regex flag on the
literal patterns used by the source). -/
def toLowerStr (s : String) : String :=
  String.mk (s.data.map Char.toLower)

/-- `hay.endsWith(suffix)` on strings. -/
def endsWithB (hay suffix : String) : Bool :=
  List.isPrefixOf suffix.data.reverse hay.data.reverse

/-- `hay.includes(needle)` (substring test) on character lists. -/
def infixOfB : List Char → List Char → Bool
  | needle, [] => needle.isEmpty
  | needle, c :: t => List.isPrefixOf needle (c :: t) || infixOfB needle t

/-- `node:path` `basename` for slash-separated paths (the uses in the source
pass absolute generated or resolved template paths). -/
def pathBasename (p : String) : String :=
  String.mk ((p.data.reverse.takeWhile fun c => c ≠ '/').reverse)

/-- `isLikelyGeneratedJspServletSource` as defined in
`javaStackFrameRewriter.ts`: conventional `org/apache/jsp` package path with a
`.java` extension, or the `_jsp.java` filename suffix (case-insensitive). -/
def isLikelyGeneratedJspServletSourceRewriter (sourcePath : String) : Bool :=
  let p := normSlash sourcePath
  if infixOfB "/org/apache/jsp/".data p.data && endsWithB p ".java" then true
  else if endsWithB (toLowerStr p) "_jsp.java" then true
  else false

/-- `isLikelyGeneratedJspServletSource` as defined in the breakpoint
translator: same two tests plus the `_tag.java` suffix. -/
def isLikelyGeneratedJspServletSourceTranslator (sourcePath : String) : Bool :=
  let p := normSlash sourcePath
  if infixOfB "/org/apache/jsp/".data p.data && endsWithB p ".java" then true
  else if endsWithB (toLowerStr p) "_jsp.java" then true
  else if endsWithB (toLowerStr p) "_tag.java" then true
  else false

/-- The `for (const m of markers)` loop of `mapJspLineToJavaLine`, carrying
the best `(javaLine, jspLine)` candidate. -/
def bestJspMarkerLoop (normalizedRefs : List String) (jspLine : Nat) :
    List TomcatJspMarker → Option (Nat × Nat) → Option (Nat × Nat)
  | [], best => best
  | m :: rest, best =>
    let best2 :=
      match m.jspFile with
      | none => best
      | some f =>
        let jf := normSlash f
        if normalizedRefs.contains jf then
          if m.jspLine ≤ jspLine then
            match best with
            | none => some (m.javaLine, m.jspLine)
            | some b =>
              if b.2 < m.jspLine ∨ (m.jspLine = b.2 ∧ b.1 < m.javaLine) then
                some (m.javaLine, m.jspLine)
              else best
          else best
        else best
    bestJspMarkerLoop normalizedRefs jspLine rest best2

/-- `mapJspLineToJavaLine`: best marker with `jspLine ≤` the request among
markers whose (normalized) `jspFile` is one of the plausible refs, plus one. -/
def mapJspLineToJavaLine (markers : List TomcatJspMarker)
    (possibleJspFileRefs : List String) (jspLine : Nat) : Option Nat :=
  let normalizedRefs := possibleJspFileRefs.map normSlash
  match bestJspMarkerLoop normalizedRefs jspLine markers none with
  | none => none
  | some best => some (best.1 + 1)

/-- A marker qualifies for the forward mapping of request line `L`: its
`jspFile` is present and (normalized) among the normalized refs, and its
`jspLine` is at most `L`. -/
def qualifiesForJspMapping (normalizedRefs : List String) (L : Nat)
    (m : TomcatJspMarker) : Prop :=
  ∃ f, m.jspFile = some f ∧ normSlash f ∈ normalizedRefs ∧ m.jspLine ≤ L

instance (normalizedRefs : List String) (L : Nat) (m : TomcatJspMarker) :
    Decidable (qualifiesForJspMapping normalizedRefs L m) := by
  unfold qualifiesForJspMapping
  cases m.jspFile <;> simp <;> infer_instance

/-- `markers` sorted ascending by `javaLine` (duplicates allowed). -/
def sortedByJavaLine (markers : List TomcatJspMarker) : Prop :=
  markers.Pairwise fun a b => a.javaLine ≤ b.javaLine

instance (markers : List TomcatJspMarker) : Decidable (sortedByJavaLine markers) := by
  unfold sortedByJavaLine
  infer_instance

/-- The result of `fs.statSync`: modification time (ms), size, and the inode
identity token when the platform provides one. -/
structure FileStat where
  ino : Option Nat
  mtimeMs : Int
  size : Nat
deriving DecidableEq, Repr

/-- A file visible to the cache: its stat fingerprint and its text content.
`none` at a path models `statSync`/`readFileSync` throwing. -/
structure FsFile where
  stat : FileStat
  content : String
deriving DecidableEq, Repr

/-- Filesystem snapshot seen by one synchronous cache call. -/
abbrev FsModel := String → Option FsFile

/-- A `GeneratedJavaMarkerCache` entry. -/
structure CacheEntry where
  ino : Option Nat
  mtimeMs : Int
  size : Nat
  markers : List TomcatJspMarker
  lastStatCheckMs : Int
deriving DecidableEq, Repr

/-- The `GeneratedJavaMarkerCache` instance state: the insertion-ordered map
(oldest first, as a JS `Map`) plus the two options. -/
structure MarkerCacheState where
  entries : List (String × CacheEntry)
  maxEntries : Nat
  statDebounceMs : Int
deriving DecidableEq, Repr

/-- JS `Map.get` on the insertion-ordered entry list. -/
def lookupEntry : List (String × CacheEntry) → String → Option CacheEntry
  | [], _ => none
  | (k, v) :: t, key => if k = key then some v else lookupEntry t key

/-- JS `Map.delete` on the insertion-ordered entry list. -/
def eraseEntry (m : List (String × CacheEntry)) (key : String) :
    List (String × CacheEntry) :=
  m.filter fun kv => kv.1 != key

/-- The cache's `touch`: delete + set, which moves the key to the
most-recently-used end of the map. -/
def touchEntry (m : List (String × CacheEntry)) (key : String) (e : CacheEntry) :
    List (String × CacheEntry) :=
  eraseEntry m key ++ [(key, e)]

/-- `enforceMaxEntries`: delete the oldest entries while the map is above the
bound. -/
def enforceMaxEntries : List (String × CacheEntry) → Nat → List (String × CacheEntry)
  | [], _ => []
  | kv :: t, maxE => if t.length + 1 ≤ maxE then kv :: t else enforceMaxEntries t maxE

/-- The stat-equality test of the read path: same `mtimeMs`, same `size`, and
an inode mismatch is tolerated only when either side lacks the token. -/
def fingerprintFresh (e : CacheEntry) (s : FileStat) : Bool :=
  decide (e.mtimeMs = s.mtimeMs) && decide (e.size = s.size) &&
  (e.ino.isNone || s.ino.isNone || decide (e.ino = s.ino))

/-- The `try { stat … } catch { … }` tail of
`readMarkersForGeneratedJavaFile` (reached when the debounce window does not
apply). -/
def markerCacheStatRead (fs : FsModel) (now : Int) (st : MarkerCacheState)
    (path : String) (existing : Option CacheEntry) :
    Option (List TomcatJspMarker) × MarkerCacheState :=
  match fs path with
  | none =>
    (none, { st with entries := match existing with
      | some _ => eraseEntry st.entries path
      | none => st.entries })
  | some file =>
    match existing with
    | some e =>
      if fingerprintFresh e file.stat then
        let e2 := { e with lastStatCheckMs := now }
        (some e.markers, { st with entries := touchEntry st.entries path e2 })
      else
        let markers := parseTomcatGeneratedJavaMarkers file.content
        let entry : CacheEntry :=
          { ino := file.stat.ino, mtimeMs := file.stat.mtimeMs, size := file.stat.size,
            markers := markers, lastStatCheckMs := now }
        (some markers,
          { st with entries := enforceMaxEntries (touchEntry st.entries path entry) st.maxEntries })
    | none =>
      let markers := parseTomcatGeneratedJavaMarkers file.content
      let entry : CacheEntry :=
        { ino := file.stat.ino, mtimeMs := file.stat.mtimeMs, size := file.stat.size,
          markers := markers, lastStatCheckMs := now }
      (some markers,
        { st with entries := enforceMaxEntries (touchEntry st.entries path entry) st.maxEntries })

/-- `readMarkersForGeneratedJavaFile`: debounced cache hit, else stat-based
refresh. -/
def markerCacheRead (fs : FsModel) (now : Int) (st : MarkerCacheState)
    (path : String) (forceStat : Bool) :
    Option (List TomcatJspMarker) × MarkerCacheState :=
  match lookupEntry st.entries path with
  | some e =>
    if !forceStat && decide (0 < st.statDebounceMs) &&
        decide (now - e.lastStatCheckMs < st.statDebounceMs) then
      (some e.markers, { st with entries := touchEntry st.entries path e })
    else markerCacheStatRead fs now st path (some e)
  | none => markerCacheStatRead fs now st path none

/-- `updateOptions`: clamp and install the new options, then immediately
re-enforce the entry bound. -/
def markerCacheUpdateOptions (st : MarkerCacheState)
    (newMaxEntries : Option Int) (newStatDebounceMs : Option Int) : MarkerCacheState :=
  let st1 := match newMaxEntries with
    | some m => { st with maxEntries := (max 1 m).toNat }
    | none => st
  let st2 := match newStatDebounceMs with
    | some d => { st1 with statDebounceMs := max 0 d }
    | none => st1
  { st2 with entries := enforceMaxEntries st2.entries st2.maxEntries }

/-- The `GeneratedJavaMarkerCache` constructor (defaults 200 entries, 250 ms). -/
def mkMarkerCache (maxEntries : Option Int) (statDebounceMs : Option Int) : MarkerCacheState :=
  { entries := [],
    maxEntries := (max 1 (maxEntries.getD 200)).toNat,
    statDebounceMs := max 0 (statDebounceMs.getD 250) }

/-- A stack frame as the rewriter sees it: the `source.path`, `source.name`
and `line` fields (a missing or non-number `line`, or a missing `source.path`,
is `none`).  The rewriter reads and writes exactly these fields. -/
structure StackFrame where
  sourcePath : Option String
  sourceName : Option String
  line : Option Nat
deriving DecidableEq, Repr

/-- One iteration of the frame loop of `maybeRewriteStackTraceResponse`
(javaStackFrameRewriter.ts).  `readMarkers path force` is the marker-cache
read (`force` is the computed `forceStat` flag), `resolveJspPath` is
`resolveWorkspaceJspPath` over the web roots; both stand for the cache plus
filesystem, fixed for the duration of one response.  `seen` is the
`forceStatForPathOnce` set.  An empty-string `source.path` or template ref is
skipped by the source's falsy tests. -/
def rewriteFrame (readMarkers : String → Bool → Option (List TomcatJspMarker))
    (resolveJspPath : String → Option String)
    (f : StackFrame) (seen : List String) : StackFrame × List String :=
  match f.sourcePath, f.line with
  | some sourcePath, some javaLine =>
    if sourcePath = "" then (f, seen)
    else if isLikelyGeneratedJspServletSourceRewriter sourcePath then
      let force := !(seen.contains sourcePath)
      let seen2 := sourcePath :: seen
      match readMarkers sourcePath force with
      | none => (f, seen2)
      | some markers =>
        if markers.isEmpty then (f, seen2)
        else
          match mapJavaLineToJsp markers javaLine with
          | none => (f, seen2)
          | some (jspLine, jspFileOpt) =>
            match jspFileOpt with
            | none => (f, seen2)
            | some jspFileRef =>
              if jspFileRef = "" then (f, seen2)
              else
                match resolveJspPath jspFileRef with
                | none => (f, seen2)
                | some jspPath =>
                  ({ sourcePath := some jspPath,
                     sourceName := some (pathBasename jspPath),
                     line := some jspLine }, seen2)
    else (f, seen)
  | _, _ => (f, seen)

/-- The frame loop: each frame is processed in order, threading the
`forceStatForPathOnce` set. -/
def rewriteFramesGo (readMarkers : String → Bool → Option (List TomcatJspMarker))
    (resolveJspPath : String → Option String) :
    List StackFrame → List String → List StackFrame
  | [], _ => []
  | f :: rest, seen =>
    let r := rewriteFrame readMarkers resolveJspPath f seen
    r.1 :: rewriteFramesGo readMarkers resolveJspPath rest r.2

/-- `maybeRewriteStackTraceResponse` on the frame list of a successful
stackTrace response. -/
def maybeRewriteStackTraceResponse
    (readMarkers : String → Bool → Option (List TomcatJspMarker))
    (resolveJspPath : String → Option String)
    (frames : List StackFrame) : List StackFrame :=
  rewriteFramesGo readMarkers resolveJspPath frames []

/-- The failure conditions of the per-frame rewrite pipeline, for a given
`forceStat` flag: any one of them makes the frame pass through unmodified
(missing or empty `source.path`, non-number `line`, heuristic miss, no or
empty markers, no floor mapping, absent or empty template ref, or unresolved
template path). -/
def frameRewriteFails (readMarkers : String → Bool → Option (List TomcatJspMarker))
    (resolveJspPath : String → Option String) (f : StackFrame) (force : Bool) : Prop :=
  f.sourcePath = none ∨ f.sourcePath = some "" ∨ f.line = none ∨
  (∃ sp, f.sourcePath = some sp ∧ isLikelyGeneratedJspServletSourceRewriter sp = false) ∨
  (∃ sp, f.sourcePath = some sp ∧ readMarkers sp force = none) ∨
  (∃ sp, f.sourcePath = some sp ∧ readMarkers sp force = some []) ∨
  (∃ sp ms L, f.sourcePath = some sp ∧ readMarkers sp force = some ms ∧ f.line = some L ∧
    mapJavaLineToJsp ms L = none) ∨
  (∃ sp ms L jl, f.sourcePath = some sp ∧ readMarkers sp force = some ms ∧ f.line = some L ∧
    mapJavaLineToJsp ms L = some (jl, none)) ∨
  (∃ sp ms L jl, f.sourcePath = some sp ∧ readMarkers sp force = some ms ∧ f.line = some L ∧
    mapJavaLineToJsp ms L = some (jl, some "")) ∨
  (∃ sp ms L jl ref, f.sourcePath = some sp ∧ readMarkers sp force = some ms ∧
    f.line = some L ∧ mapJavaLineToJsp ms L = some (jl, some ref) ∧
    resolveJspPath ref = none)

/-- A pending setBreakpoints translation, keyed by request sequence number. -/
structure PendingSetBreakpoints where
  originalSourcePath : String
  requestedSourcePath : String
  generatedJavaPath : String
deriving DecidableEq, Repr

/-- A breakpoint of a setBreakpoints response body (`line`, `source.path`,
`source.name`; non-number `line` is `none`). -/
structure ResponseBreakpoint where
  line : Option Nat
  sourcePath : Option String
  sourceName : Option String
deriving DecidableEq, Repr

/-- A setBreakpoints response message as far as the translator inspects and
rewrites it.  `breakpoints = none` models a missing or non-array
`body.breakpoints`. -/
structure SetBreakpointsResponse where
  type : String
  command : String
  success : Bool
  request_seq : Option Nat
  breakpoints : Option (List ResponseBreakpoint)
deriving DecidableEq, Repr

/-- JS `Map.get` on the pending-translation map. -/
def lookupPending : List (Nat × PendingSetBreakpoints) → Nat → Option PendingSetBreakpoints
  | [], _ => none
  | (k, v) :: t, key => if k = key then some v else lookupPending t key

/-- JS `Map.delete` on the pending-translation map. -/
def erasePending (m : List (Nat × PendingSetBreakpoints)) (key : Nat) :
    List (Nat × PendingSetBreakpoints) :=
  m.filter fun kv => kv.1 != key

/-- The per-breakpoint body of the response loop of
`tryRewriteSetBreakpointsResponse`: prefer the generated path the adapter
reports when it looks like compiled output, map the line back, resolve the
template path, and rewrite — or leave the breakpoint untouched on any miss.
The source skips a mapped `jspLine` of `0` and an empty `jspFile` via its
falsy tests. -/
def processResponseBp (readMarkers : String → Option (List TomcatJspMarker))
    (resolveJspPath : String → Option String)
    (generatedJavaPath : String) (markers : List TomcatJspMarker)
    (bp : ResponseBreakpoint) : ResponseBreakpoint :=
  match bp.line with
  | none => bp
  | some javaLine =>
    let effectiveGeneratedPath :=
      match bp.sourcePath with
      | some sp => if isLikelyGeneratedJspServletSourceTranslator sp then sp else generatedJavaPath
      | none => generatedJavaPath
    let effectiveMarkers :=
      if effectiveGeneratedPath = generatedJavaPath then some markers
      else readMarkers effectiveGeneratedPath
    match effectiveMarkers with
    | none => bp
    | some ems =>
      if ems.isEmpty then bp
      else
        match mapJavaLineToJsp ems javaLine with
        | none => bp
        | some (jspLine, jspFileOpt) =>
          if jspLine = 0 then bp
          else
            match jspFileOpt with
            | none => bp
            | some jspFile =>
              if jspFile = "" then bp
              else
                match resolveJspPath jspFile with
                | none => bp
                | some jspPath =>
                  { bp with line := some jspLine,
                            sourcePath := some jspPath,
                            sourceName := some (pathBasename jspPath) }

/-- `tryRewriteSetBreakpointsResponse`: guards, correlation by
`request_seq`, the per-breakpoint loop, and the final deletion of the pending
entry.  `readMarkers` stands for the force-stat cache read and
`resolveJspPath` for `resolveWorkspaceJspPath`, both fixed for this message. -/
def tryRewriteSetBreakpointsResponse
    (readMarkers : String → Option (List TomcatJspMarker))
    (resolveJspPath : String → Option String)
    (message : SetBreakpointsResponse)
    (pending : List (Nat × PendingSetBreakpoints)) :
    SetBreakpointsResponse × List (Nat × PendingSetBreakpoints) :=
  if message.type ≠ "response" ∨ message.command ≠ "setBreakpoints" ∨ message.success = false then
    (message, pending)
  else
    match message.request_seq with
    | none => (message, pending)
    | some requestSeq =>
      match lookupPending pending requestSeq with
      | none => (message, pending)
      | some p =>
        match message.breakpoints with
        | none => (message, pending)
        | some bps =>
          if bps.isEmpty then (message, pending)
          else
            match readMarkers p.generatedJavaPath with
            | none => (message, pending)
            | some markers =>
              if markers.isEmpty then (message, pending)
              else
                let newBps := bps.map
                  (processResponseBp readMarkers resolveJspPath p.generatedJavaPath markers)
                ({ message with breakpoints := some newBps }, erasePending pending requestSeq)

/-- The `javaLine` of the marker at array index `i` (out-of-range reads give
the irrelevant default). -/
def markerLineAt (markers : List TomcatJspMarker) (i : Nat) : Nat :=
  (markers.getD i default).javaLine

lemma sorted_markerLineAt_le {markers : List TomcatJspMarker}
    (hs : sortedByJavaLine markers) {i j : Nat} (hij : i ≤ j) (hj : j < markers.length) :
    markerLineAt markers i ≤ markerLineAt markers j := by
  rcases Nat.eq_or_lt_of_le hij with h | h
  · subst h; exact le_refl _
  · have hi : i < markers.length := lt_trans h hj
    have hp := (List.pairwise_iff_getElem.mp hs) i j hi hj h
    simpa [markerLineAt, List.getD_eq_getElem, hi, hj] using hp

lemma mapLoop_spec (markers : List TomcatJspMarker) (q : Nat)
    (hs : sortedByJavaLine markers) :
    ∀ (fuel : Nat) (lo hi : Int) (best : Option TomcatJspMarker),
      (hi + 1 - lo).toNat ≤ fuel →
      0 ≤ lo → hi < (markers.length : Int) → lo ≤ hi + 1 →
      (∀ i : Nat, (i : Int) < lo → markerLineAt markers i < q) →
      (∀ i : Nat, hi < (i : Int) → i < markers.length → q < markerLineAt markers i) →
      (best = none → lo = 0) →
      (∀ m, best = some m → 1 ≤ lo ∧ m = markers.getD (lo - 1).toNat default ∧ m.javaLine < q) →
      ((mapLoop markers q lo hi best = none →
          ∀ i, i < markers.length → q < markerLineAt markers i) ∧
       (∀ m, mapLoop markers q lo hi best = some m →
          ∃ k, k < markers.length ∧ m = markers.getD k default ∧ m.javaLine ≤ q ∧
            ∀ j, j < markers.length → markerLineAt markers j ≤ q →
              markerLineAt markers j ≤ m.javaLine) ∧
       ((∀ i, i < markers.length → markerLineAt markers i ≠ q) →
          ∀ m, mapLoop markers q lo hi best = some m →
            ∃ k, k < markers.length ∧ m = markers.getD k default ∧ m.javaLine ≤ q ∧
              ∀ j, k < j → j < markers.length → q < markerLineAt markers j)) := by
  intro fuel
  induction fuel with
  | zero =>
    intro lo hi best hfuel hlo hhi hconn hbelow habove hbnone hbsome
    have hexit : ¬ lo ≤ hi := by omega
    rw [mapLoop, dif_neg hexit]
    refine ⟨?_, ?_, ?_⟩
    · intro hn i hi_n
      have hlo0 : lo = 0 := hbnone hn
      exact habove i (by omega) hi_n
    · intro m hm
      obtain ⟨h1le, hmeq, hmlt⟩ := hbsome m hm
      refine ⟨(lo - 1).toNat, by omega, hmeq, le_of_lt hmlt, ?_⟩
      intro j hj hjq
      have hjlo : (j : Int) < lo := by
        by_contra hgt
        have : q < markerLineAt markers j := habove j (by omega) hj
        omega
      have hjk : j ≤ (lo - 1).toNat := by omega
      have := sorted_markerLineAt_le hs hjk (by omega)
      have hmv : m.javaLine = markerLineAt markers (lo - 1).toNat := by
        rw [hmeq]; rfl
      omega
    · intro _ m hm
      obtain ⟨h1le, hmeq, hmlt⟩ := hbsome m hm
      refine ⟨(lo - 1).toNat, by omega, hmeq, le_of_lt hmlt, ?_⟩
      intro j hkj hj
      exact habove j (by omega) hj
  | succ fuel ih =>
    intro lo hi best hfuel hlo hhi hconn hbelow habove hbnone hbsome
    by_cases hle : lo ≤ hi
    case neg =>
      rw [mapLoop, dif_neg hle]
      refine ⟨?_, ?_, ?_⟩
      · intro hn i hi_n
        have hlo0 : lo = 0 := hbnone hn
        exact habove i (by omega) hi_n
      · intro m hm
        obtain ⟨h1le, hmeq, hmlt⟩ := hbsome m hm
        refine ⟨(lo - 1).toNat, by omega, hmeq, le_of_lt hmlt, ?_⟩
        intro j hj hjq
        have hjlo : (j : Int) < lo := by
          by_contra hgt
          have : q < markerLineAt markers j := habove j (by omega) hj
          omega
        have hjk : j ≤ (lo - 1).toNat := by omega
        have := sorted_markerLineAt_le hs hjk (by omega)
        have hmv : m.javaLine = markerLineAt markers (lo - 1).toNat := by
          rw [hmeq]; rfl
        omega
      · intro _ m hm
        obtain ⟨h1le, hmeq, hmlt⟩ := hbsome m hm
        refine ⟨(lo - 1).toNat, by omega, hmeq, le_of_lt hmlt, ?_⟩
        intro j hkj hj
        exact habove j (by omega) hj
    case pos =>
      rw [mapLoop, dif_pos hle]
      set mid : Int := (lo + hi) / 2 with hmid
      have hmlo : lo ≤ mid := by omega
      have hmhi : mid ≤ hi := by omega
      have hmidn : mid.toNat < markers.length := by omega
      have hmidc : (mid.toNat : Int) = mid := by omega
      set m := markers.getD mid.toNat default with hmdef
      have hmline : m.javaLine = markerLineAt markers mid.toNat := rfl
      by_cases heq : m.javaLine = q
      · simp only [if_pos heq]
        refine ⟨?_, ?_, ?_⟩
        · intro h; exact absurd h (by simp)
        · intro m' hm'
          injection hm' with h
          subst h
          exact ⟨mid.toNat, hmidn, hmdef, le_of_eq heq,
            fun j _ hjq => hjq.trans (le_of_eq heq.symm)⟩
        · intro hne m' _
          exact absurd (hmline ▸ heq) (hne mid.toNat hmidn)
      · simp only [if_neg heq]
        by_cases hlt : m.javaLine < q
        · simp only [if_pos hlt]
          refine ih (mid + 1) hi (some m) (by omega) (by omega) hhi (by omega) ?_ habove
            (by intro h; exact absurd h (by simp)) ?_
          · intro i hi_mid
            have hik : i ≤ mid.toNat := by omega
            have := sorted_markerLineAt_le hs hik hmidn
            omega
          · intro m' hm'
            injection hm' with h
            subst h
            refine ⟨by omega, ?_, hlt⟩
            have h2 : (mid + 1 - 1 : Int).toNat = mid.toNat := by omega
            rw [h2]
        · simp only [if_neg hlt]
          have hgt : q < m.javaLine := by omega
          refine ih lo (mid - 1) best (by omega) hlo (by omega) (by omega) hbelow ?_
            hbnone hbsome
          intro i hi_mid hi_n
          have hik : mid.toNat ≤ i := by omega
          have := sorted_markerLineAt_le hs hik hi_n
          omega

lemma getD_mem_of_lt {l : List TomcatJspMarker} {i : Nat} (h : i < l.length) :
    l.getD i default ∈ l := by
  rw [List.getD_eq_getElem _ _ h]
  exact List.getElem_mem h

lemma markerLineAt_of_mem {l : List TomcatJspMarker} {m : TomcatJspMarker} (h : m ∈ l) :
    ∃ i, i < l.length ∧ l.getD i default = m := by
  obtain ⟨i, hi, hget⟩ := List.mem_iff_getElem.mp h
  exact ⟨i, hi, by rw [List.getD_eq_getElem _ _ hi]; exact hget⟩

/-- Floor-search contract of `mapJavaLineToJsp` over any sorted marker list:
`none` exactly when no marker is at or below the query, otherwise the
returned pair comes from a marker at or below the query whose `javaLine` is
maximal among such markers. -/
lemma mapJavaLineToJsp_spec (markers : List TomcatJspMarker) (q : Nat)
    (hs : sortedByJavaLine markers) :
    (mapJavaLineToJsp markers q = none ↔ ∀ m ∈ markers, q < m.javaLine) ∧
    (∀ r, mapJavaLineToJsp markers q = some r →
      ∃ m ∈ markers, m.javaLine ≤ q ∧ r = (m.jspLine, m.jspFile) ∧
        ∀ m' ∈ markers, m'.javaLine ≤ q → m'.javaLine ≤ m.javaLine) := by
  by_cases hlen : markers.length = 0
  · have hnil : markers = [] := List.length_eq_zero.mp hlen
    subst hnil
    constructor
    · simp [mapJavaLineToJsp]
    · intro r hr
      simp [mapJavaLineToJsp] at hr
  · have hspec := mapLoop_spec markers q hs markers.length 0 ((markers.length : Int) - 1) none
      (by omega) (by omega) (by omega) (by omega)
      (by intro i hi; omega)
      (by intro i hi hin; omega)
      (by intro; rfl)
      (by intro m hm; exact absurd hm (by simp))
    obtain ⟨hnone, hsome, _⟩ := hspec
    have hres : mapJavaLineToJsp markers q =
        match mapLoop markers q 0 ((markers.length : Int) - 1) none with
        | none => none
        | some m => some (m.jspLine, m.jspFile) := by
      unfold mapJavaLineToJsp
      rw [if_neg hlen]
    constructor
    · constructor
      · intro h m hm
        rw [hres] at h
        cases hloop : mapLoop markers q 0 ((markers.length : Int) - 1) none with
        | none =>
          obtain ⟨i, hi, hgd⟩ := markerLineAt_of_mem hm
          have := hnone hloop i hi
          unfold markerLineAt at this
          rw [hgd] at this
          exact this
        | some mm => rw [hloop] at h; simp at h
      · intro hall
        rw [hres]
        cases hloop : mapLoop markers q 0 ((markers.length : Int) - 1) none with
        | none => rfl
        | some mm =>
          obtain ⟨k, hk, hmeq, hle, _⟩ := hsome mm hloop
          have hmem : mm ∈ markers := hmeq ▸ getD_mem_of_lt hk
          exact absurd hle (by have := hall mm hmem; omega)
    · intro r hr
      rw [hres] at hr
      cases hloop : mapLoop markers q 0 ((markers.length : Int) - 1) none with
      | none => rw [hloop] at hr; simp at hr
      | some mm =>
        rw [hloop] at hr
        have hreq : r = (mm.jspLine, mm.jspFile) := by injection hr with h; exact h.symm
        obtain ⟨k, hk, hmeq, hle, hmax⟩ := hsome mm hloop
        refine ⟨mm, hmeq ▸ getD_mem_of_lt hk, hle, hreq, ?_⟩
        intro m' hm' hle'
        obtain ⟨j, hj, hgd⟩ := markerLineAt_of_mem hm'
        have := hmax j hj (by unfold markerLineAt; rw [hgd]; exact hle')
        unfold markerLineAt at this
        rw [hgd] at this
        exact this

/-- Under a no-exact-match hypothesis, the floor search returns the marker at
the greatest array index among those with `javaLine` at or below the query —
the "later one scanned" of the spec. -/
lemma mapJavaLineToJsp_last_spec (markers : List TomcatJspMarker) (q : Nat)
    (hs : sortedByJavaLine markers) (hne : ∀ m ∈ markers, m.javaLine ≠ q) :
    ∀ r, mapJavaLineToJsp markers q = some r →
      ∃ k, k < markers.length ∧ r = ((markers.getD k default).jspLine, (markers.getD k default).jspFile) ∧
        (markers.getD k default).javaLine ≤ q ∧
        ∀ j, k < j → j < markers.length → q < markerLineAt markers j := by
  intro r hr
  by_cases hlen : markers.length = 0
  · have hnil : markers = [] := List.length_eq_zero.mp hlen
    subst hnil
    simp [mapJavaLineToJsp] at hr
  · have hspec := mapLoop_spec markers q hs markers.length 0 ((markers.length : Int) - 1) none
      (by omega) (by omega) (by omega) (by omega)
      (by intro i hi; omega)
      (by intro i hi hin; omega)
      (by intro; rfl)
      (by intro m hm; exact absurd hm (by simp))
    obtain ⟨_, _, hlast⟩ := hspec
    have hres : mapJavaLineToJsp markers q =
        match mapLoop markers q 0 ((markers.length : Int) - 1) none with
        | none => none
        | some m => some (m.jspLine, m.jspFile) := by
      unfold mapJavaLineToJsp
      rw [if_neg hlen]
    rw [hres] at hr
    cases hloop : mapLoop markers q 0 ((markers.length : Int) - 1) none with
    | none => rw [hloop] at hr; simp at hr
    | some mm =>
      rw [hloop] at hr
      have hreq : r = (mm.jspLine, mm.jspFile) := by injection hr with h; exact h.symm
      have hne' : ∀ i, i < markers.length → markerLineAt markers i ≠ q := by
        intro i hi
        exact hne _ (getD_mem_of_lt hi)
      obtain ⟨k, hk, hmeq, hle, hafter⟩ := hlast hne' mm hloop
      exact ⟨k, hk, by rw [hreq, hmeq], by rw [← hmeq]; exact hle, hafter⟩

/-- The concrete marker list of the spec's floor-mapping example: compiled
lines 8, 11, 14, 17 mapped to template lines 1, 2, 3, 10. -/
def exampleMarkersC1 : List TomcatJspMarker :=
  [⟨8, 1, none⟩, ⟨11, 2, none⟩, ⟨14, 3, none⟩, ⟨17, 10, none⟩]

/-- C1: for every marker list sorted ascending by `javaLine` (compiledLine)
and every queried compiled line, `mapJavaLineToJsp` returns the
templateLine/templateRef of a marker with the greatest `javaLine ≤` the query
and returns `none` exactly when no marker has `javaLine ≤` the query; in
particular, on markers at compiled lines 8, 11, 14, 17 with template lines
1, 2, 3, 10, querying line 9 returns template line 1 and querying line 7
returns `none`. -/
theorem C1_mapJavaLineToJsp_floor (markers : List TomcatJspMarker) (q : Nat)
    (hs : sortedByJavaLine markers) :
    ((mapJavaLineToJsp markers q = none ↔ ∀ m ∈ markers, q < m.javaLine) ∧
     (∀ r, mapJavaLineToJsp markers q = some r →
       ∃ m ∈ markers, m.javaLine ≤ q ∧ r = (m.jspLine, m.jspFile) ∧
         ∀ m' ∈ markers, m'.javaLine ≤ q → m'.javaLine ≤ m.javaLine)) ∧
    mapJavaLineToJsp exampleMarkersC1 9 = some (1, none) ∧
    mapJavaLineToJsp exampleMarkersC1 7 = none := by
  refine ⟨mapJavaLineToJsp_spec markers q hs, ?_, ?_⟩ <;>
    simp [exampleMarkersC1, mapJavaLineToJsp, mapLoop]

/-- Witness for C1 at the spec's own example list. -/
theorem C1_mapJavaLineToJsp_floor_witness :
    sortedByJavaLine exampleMarkersC1 ∧
    mapJavaLineToJsp exampleMarkersC1 9 = some (1, none) :=
  ⟨by decide, (C1_mapJavaLineToJsp_floor exampleMarkersC1 9 (by decide)).2.1⟩

/-- A sorted marker list with a duplicated `javaLine` value. -/
def dupMarkersC4 : List TomcatJspMarker :=
  [⟨5, 1, none⟩, ⟨5, 2, none⟩]

/-- C4 counterexample: on the sorted list with markers (javaLine 5, jspLine 1)
and (javaLine 5, jspLine 2), querying compiled line 5 — the exact-match case —
returns the EARLIER duplicate (template line 1), not the later one (template
line 2) that the claim promises: the binary search breaks at its probe
midpoint on an exact hit. -/
theorem C4_counterexample :
    sortedByJavaLine dupMarkersC4 ∧
    mapJavaLineToJsp dupMarkersC4 5 = some (1, none) ∧
    mapJavaLineToJsp dupMarkersC4 5 ≠ some (2, none) := by
  refine ⟨by decide, ?_, ?_⟩ <;> simp [dupMarkersC4, mapJavaLineToJsp, mapLoop]

/-- C4 (amended): `mapJavaLineToJsp` stays correct under duplicate
`javaLine` values — it always returns a marker achieving the greatest
`javaLine ≤` the query — and when no marker sits exactly at the query the
returned marker is the one appearing later in the array (no later index still
has `javaLine ≤` the query); on an exact match, however, the binary search
stops at its probe midpoint, which need not be the later duplicate. -/
theorem C4_mapJavaLineToJsp_duplicates (markers : List TomcatJspMarker) (q : Nat)
    (hs : sortedByJavaLine markers) :
    (∀ r, mapJavaLineToJsp markers q = some r →
      ∃ m ∈ markers, m.javaLine ≤ q ∧ r = (m.jspLine, m.jspFile) ∧
        ∀ m' ∈ markers, m'.javaLine ≤ q → m'.javaLine ≤ m.javaLine) ∧
    ((∀ m ∈ markers, m.javaLine ≠ q) →
      ∀ r, mapJavaLineToJsp markers q = some r →
        ∃ k, k < markers.length ∧
          r = ((markers.getD k default).jspLine, (markers.getD k default).jspFile) ∧
          (markers.getD k default).javaLine ≤ q ∧
          ∀ j, k < j → j < markers.length → q < markerLineAt markers j) :=
  ⟨(mapJavaLineToJsp_spec markers q hs).2,
   fun hne => mapJavaLineToJsp_last_spec markers q hs hne⟩

/-- Witness for C4 (amended) on a sorted list with a duplicated
`javaLine` strictly below the query: the later duplicate (index 2, template
line 3) is the one returned. -/
theorem C4_mapJavaLineToJsp_duplicates_witness :
    sortedByJavaLine [(⟨3, 9, none⟩ : TomcatJspMarker), ⟨5, 1, none⟩, ⟨5, 3, none⟩] ∧
    mapJavaLineToJsp [(⟨3, 9, none⟩ : TomcatJspMarker), ⟨5, 1, none⟩, ⟨5, 3, none⟩] 6 =
      some (3, none) ∧
    (∀ r, mapJavaLineToJsp [(⟨3, 9, none⟩ : TomcatJspMarker), ⟨5, 1, none⟩, ⟨5, 3, none⟩] 6 = some r →
      ∃ m ∈ [(⟨3, 9, none⟩ : TomcatJspMarker), ⟨5, 1, none⟩, ⟨5, 3, none⟩], m.javaLine ≤ 6 ∧
        r = (m.jspLine, m.jspFile) ∧
        ∀ m' ∈ [(⟨3, 9, none⟩ : TomcatJspMarker), ⟨5, 1, none⟩, ⟨5, 3, none⟩],
          m'.javaLine ≤ 6 → m'.javaLine ≤ m.javaLine) := by
  refine ⟨by decide, by simp [mapJavaLineToJsp, mapLoop], ?_⟩
  exact (C4_mapJavaLineToJsp_duplicates
    [(⟨3, 9, none⟩ : TomcatJspMarker), ⟨5, 1, none⟩, ⟨5, 3, none⟩] 6 (by decide)).1

/-- Preference order on best candidates `(javaLine, jspLine)`: `b` beats `c`
when `b` has the strictly greater `jspLine`, or the same `jspLine` and a
`javaLine` at least as great. -/
def pairDominates (b c : Nat × Nat) : Prop :=
  c.2 < b.2 ∨ (c.2 = b.2 ∧ c.1 ≤ b.1)

lemma pairDominates_refl (b : Nat × Nat) : pairDominates b b := by
  right; exact ⟨rfl, le_refl _⟩

lemma pairDominates_trans {a b c : Nat × Nat}
    (h1 : pairDominates a b) (h2 : pairDominates b c) : pairDominates a c := by
  unfold pairDominates at *
  omega

/-- One iteration body of the `mapJspLineToJavaLine` loop. -/
def stepBest (normalizedRefs : List String) (jspLine : Nat) (m : TomcatJspMarker)
    (best : Option (Nat × Nat)) : Option (Nat × Nat) :=
  match m.jspFile with
  | none => best
  | some f =>
    let jf := normSlash f
    if normalizedRefs.contains jf then
      if m.jspLine ≤ jspLine then
        match best with
        | none => some (m.javaLine, m.jspLine)
        | some b =>
          if b.2 < m.jspLine ∨ (m.jspLine = b.2 ∧ b.1 < m.javaLine) then
            some (m.javaLine, m.jspLine)
          else best
      else best
    else best

lemma bestJspMarkerLoop_cons (refs : List String) (L : Nat) (m : TomcatJspMarker)
    (rest : List TomcatJspMarker) (best : Option (Nat × Nat)) :
    bestJspMarkerLoop refs L (m :: rest) best =
      bestJspMarkerLoop refs L rest (stepBest refs L m best) := rfl

lemma stepBest_spec (refs : List String) (L : Nat) (m : TomcatJspMarker)
    (best : Option (Nat × Nat)) :
    (stepBest refs L m best = none ↔ (best = none ∧ ¬ qualifiesForJspMapping refs L m)) ∧
    (∀ b, stepBest refs L m best = some b →
      (best = some b ∨ (qualifiesForJspMapping refs L m ∧ b = (m.javaLine, m.jspLine))) ∧
      (∀ b0, best = some b0 → pairDominates b b0) ∧
      (qualifiesForJspMapping refs L m → pairDominates b (m.javaLine, m.jspLine))) := by
  have passthrough : ∀ hstep : stepBest refs L m best = best,
      ¬ qualifiesForJspMapping refs L m →
      (stepBest refs L m best = none ↔ (best = none ∧ ¬ qualifiesForJspMapping refs L m)) ∧
      (∀ b, stepBest refs L m best = some b →
        (best = some b ∨ (qualifiesForJspMapping refs L m ∧ b = (m.javaLine, m.jspLine))) ∧
        (∀ b0, best = some b0 → pairDominates b b0) ∧
        (qualifiesForJspMapping refs L m → pairDominates b (m.javaLine, m.jspLine))) := by
    intro hstep hq
    rw [hstep]
    refine ⟨by simp [hq], ?_⟩
    intro b hb
    refine ⟨Or.inl hb, ?_, fun h => absurd h hq⟩
    intro b0 h0
    rw [hb] at h0
    injection h0 with h
    rw [h]
    exact pairDominates_refl _
  cases hf : m.jspFile with
  | none =>
    have hq : ¬ qualifiesForJspMapping refs L m := by
      rintro ⟨f, hf', _⟩
      rw [hf] at hf'
      cases hf'
    exact passthrough (by simp [stepBest, hf]) hq
  | some f =>
    by_cases hc : normSlash f ∈ refs
    case neg =>
      have hq : ¬ qualifiesForJspMapping refs L m := by
        rintro ⟨f', hf', hmem, _⟩
        rw [hf] at hf'
        injection hf' with h
        subst h
        exact hc hmem
      exact passthrough (by simp [stepBest, hf, hc]) hq
    case pos =>
      have hcb : refs.contains (normSlash f) = true := List.elem_iff.mpr hc
      by_cases hle : m.jspLine ≤ L
      case neg =>
        have hq : ¬ qualifiesForJspMapping refs L m := by
          rintro ⟨f', hf', _, hle'⟩
          rw [hf] at hf'
          injection hf' with h
          subst h
          exact hle hle'
        exact passthrough (by simp [stepBest, hf, hc, hcb, hle]) hq
      case pos =>
        have hq : qualifiesForJspMapping refs L m := ⟨f, hf, hc, hle⟩
        cases hbest : best with
        | none =>
          have hstep : stepBest refs L m none = some (m.javaLine, m.jspLine) := by
            simp [stepBest, hf, hc, hcb, hle]
          rw [hstep]
          refine ⟨by simp [hq], ?_⟩
          intro b hb
          injection hb with h
          subst h
          refine ⟨Or.inr ⟨hq, rfl⟩, ?_, fun _ => pairDominates_refl _⟩
          intro b0 h0
          cases h0
        | some b0 =>
          by_cases hcond : b0.2 < m.jspLine ∨ (m.jspLine = b0.2 ∧ b0.1 < m.javaLine)
          case pos =>
            have hstep : stepBest refs L m (some b0) = some (m.javaLine, m.jspLine) := by
              simp [stepBest, hf, hc, hcb, hle, hcond]
            rw [hstep]
            refine ⟨by simp [hq], ?_⟩
            intro b hb
            injection hb with h
            subst h
            refine ⟨Or.inr ⟨hq, rfl⟩, ?_, fun _ => pairDominates_refl _⟩
            intro b1 h1
            injection h1 with h1
            subst h1
            unfold pairDominates
            omega
          case neg =>
            have hstep : stepBest refs L m (some b0) = some b0 := by
              simp [stepBest, hf, hc, hcb, hle, hcond]
            rw [hstep]
            refine ⟨by simp [hq], ?_⟩
            intro b hb
            injection hb with h
            subst h
            refine ⟨Or.inl rfl, ?_, ?_⟩
            · intro b1 h1
              injection h1 with h1
              subst h1
              exact pairDominates_refl _
            · intro _
              unfold pairDominates
              push_neg at hcond
              omega

lemma bestJspMarkerLoop_spec (refs : List String) (L : Nat) :
    ∀ (markers : List TomcatJspMarker) (best : Option (Nat × Nat)),
      (bestJspMarkerLoop refs L markers best = none ↔
        (best = none ∧ ∀ m ∈ markers, ¬ qualifiesForJspMapping refs L m)) ∧
      (∀ b, bestJspMarkerLoop refs L markers best = some b →
        ((best = some b) ∨
          ∃ m ∈ markers, qualifiesForJspMapping refs L m ∧ b = (m.javaLine, m.jspLine)) ∧
        (∀ b0, best = some b0 → pairDominates b b0) ∧
        (∀ m ∈ markers, qualifiesForJspMapping refs L m →
          pairDominates b (m.javaLine, m.jspLine))) := by
  intro markers
  induction markers with
  | nil =>
    intro best
    constructor
    · simp [bestJspMarkerLoop]
    · intro b hb
      simp only [bestJspMarkerLoop] at hb
      refine ⟨Or.inl hb, ?_, by simp⟩
      intro b0 h0
      rw [hb] at h0
      injection h0 with h
      rw [h]
      exact pairDominates_refl _
  | cons m rest ih =>
    intro best
    rw [bestJspMarkerLoop_cons]
    obtain ⟨ihnone, ihsome⟩ := ih (stepBest refs L m best)
    obtain ⟨snone, ssome⟩ := stepBest_spec refs L m best
    constructor
    · rw [ihnone, snone]
      constructor
      · rintro ⟨⟨hbn, hqm⟩, hrest⟩
        refine ⟨hbn, ?_⟩
        intro m' hm'
        rcases List.mem_cons.mp hm' with h | h
        · subst h; exact hqm
        · exact hrest m' h
      · rintro ⟨hbn, hall⟩
        exact ⟨⟨hbn, hall m (List.mem_cons_self m rest)⟩,
          fun m' hm' => hall m' (List.mem_cons_of_mem m hm')⟩
    · intro b hb
      obtain ⟨horigin, hdom, hrest⟩ := ihsome b hb
      refine ⟨?_, ?_, ?_⟩
      · rcases horigin with h | ⟨m', hm', hq', hb'⟩
        · rcases (ssome b h).1 with h2 | ⟨hq2, hb2⟩
          · exact Or.inl h2
          · exact Or.inr ⟨m, List.mem_cons_self m rest, hq2, hb2⟩
        · exact Or.inr ⟨m', List.mem_cons_of_mem m hm', hq', hb'⟩
      · intro b0 h0
        cases hb' : stepBest refs L m best with
        | none =>
          obtain ⟨hbn, _⟩ := snone.mp hb'
          rw [h0] at hbn
          cases hbn
        | some b1 =>
          obtain ⟨_, hdom1, _⟩ := ssome b1 hb'
          exact pairDominates_trans (hdom b1 hb') (hdom1 b0 h0)
      · intro m' hm' hq'
        rcases List.mem_cons.mp hm' with h | h
        · rw [h] at hq' ⊢
          cases hb' : stepBest refs L m best with
          | none =>
            obtain ⟨_, hqn⟩ := snone.mp hb'
            exact absurd hq' hqn
          | some b1 =>
            obtain ⟨_, _, hdomm⟩ := ssome b1 hb'
            exact pairDominates_trans (hdom b1 hb') (hdomm hq')
        · exact hrest m' h hq'

/-- Contract of `mapJspLineToJavaLine`: `none` exactly when no marker
qualifies (present `jspFile` among the normalized refs and `jspLine ≤` the
request); otherwise the result is one plus the `javaLine` of a qualifying
marker that is lexicographically maximal in `(jspLine, javaLine)`. -/
lemma mapJspLineToJavaLine_spec (markers : List TomcatJspMarker)
    (refs : List String) (L : Nat) :
    (mapJspLineToJavaLine markers refs L = none ↔
      ∀ m ∈ markers, ¬ qualifiesForJspMapping (refs.map normSlash) L m) ∧
    (∀ j, mapJspLineToJavaLine markers refs L = some j →
      ∃ m ∈ markers, qualifiesForJspMapping (refs.map normSlash) L m ∧
        j = m.javaLine + 1 ∧
        ∀ m' ∈ markers, qualifiesForJspMapping (refs.map normSlash) L m' →
          (m'.jspLine < m.jspLine ∨
            (m'.jspLine = m.jspLine ∧ m'.javaLine ≤ m.javaLine))) := by
  obtain ⟨hnone, hsome⟩ := bestJspMarkerLoop_spec (refs.map normSlash) L markers none
  have hres : mapJspLineToJavaLine markers refs L =
      match bestJspMarkerLoop (refs.map normSlash) L markers none with
      | none => none
      | some best => some (best.1 + 1) := rfl
  constructor
  · rw [hres]
    cases hloop : bestJspMarkerLoop (refs.map normSlash) L markers none with
    | none =>
      obtain ⟨_, hall⟩ := hnone.mp hloop
      exact ⟨fun _ => hall, fun _ => rfl⟩
    | some b =>
      constructor
      · intro h; cases h
      · intro hall
        obtain ⟨horigin, _, _⟩ := hsome b hloop
        rcases horigin with h | ⟨m, hm, hq, _⟩
        · cases h
        · exact absurd hq (hall m hm)
  · intro j hj
    rw [hres] at hj
    cases hloop : bestJspMarkerLoop (refs.map normSlash) L markers none with
    | none => rw [hloop] at hj; cases hj
    | some b =>
      rw [hloop] at hj
      injection hj with hjval
      obtain ⟨horigin, _, hdomall⟩ := hsome b hloop
      rcases horigin with h | ⟨m, hm, hq, hb⟩
      · cases h
      · refine ⟨m, hm, hq, ?_, ?_⟩
        · rw [← hjval, hb]
        · intro m' hm' hq'
          have := hdomall m' hm' hq'
          rw [hb] at this
          unfold pairDominates at this
          simpa using this

/-- The marker list of the spec's round-trip scenario: the comment
`// line 3 "/webapp/index.jsp"` sits at compiled line 14. -/
def scenarioMarkersC2 : List TomcatJspMarker :=
  [⟨14, 3, some "/webapp/index.jsp"⟩]

/-- C2: in the breakpoint translator's forward mapping, the computed compiled
line is one plus the `javaLine` of a qualifying marker (its `templateRef`
present and equal — after slash normalization — to one of the template's
plausible reference strings, its `jspLine ≤` the requested line) that is
maximal first in `jspLine` and then in `javaLine`; `none` exactly when no
marker qualifies; and the spec scenario: requesting template line 3 against a
marker at compiled line 14 yields compiled line 15. -/
theorem C2_mapJspLineToJavaLine_forward (markers : List TomcatJspMarker)
    (refs : List String) (L : Nat) :
    ((mapJspLineToJavaLine markers refs L = none ↔
        ∀ m ∈ markers, ¬ qualifiesForJspMapping (refs.map normSlash) L m) ∧
     (∀ j, mapJspLineToJavaLine markers refs L = some j →
        ∃ m ∈ markers, qualifiesForJspMapping (refs.map normSlash) L m ∧
          j = m.javaLine + 1 ∧
          ∀ m' ∈ markers, qualifiesForJspMapping (refs.map normSlash) L m' →
            (m'.jspLine < m.jspLine ∨
              (m'.jspLine = m.jspLine ∧ m'.javaLine ≤ m.javaLine)))) ∧
    mapJspLineToJavaLine scenarioMarkersC2 ["/webapp/index.jsp"] 3 = some 15 :=
  ⟨mapJspLineToJavaLine_spec markers refs L, by decide⟩

/-- Witness for C2: applying the forward-mapping contract at the scenario
input, with the hypothesis (`… = some 15`) discharged by evaluation. -/
theorem C2_mapJspLineToJavaLine_forward_witness :
    ∃ m ∈ scenarioMarkersC2,
      qualifiesForJspMapping (["/webapp/index.jsp"].map normSlash) 3 m ∧
      (15 : Nat) = m.javaLine + 1 ∧
      ∀ m' ∈ scenarioMarkersC2,
        qualifiesForJspMapping (["/webapp/index.jsp"].map normSlash) 3 m' →
          (m'.jspLine < m.jspLine ∨
            (m'.jspLine = m.jspLine ∧ m'.javaLine ≤ m.javaLine)) :=
  (C2_mapJspLineToJavaLine_forward scenarioMarkersC2 ["/webapp/index.jsp"] 3).1.2
    15 (by decide)

/-- C10: the breakpoint translator's compiled-source heuristic accepts every
path the stack-frame rewriter's accepts; the two differ exactly on paths with
the (case-insensitive) `_tag.java` suffix that neither contain
`/org/apache/jsp/` with a `.java` extension nor match the `_jsp.java`
suffix — so they are not equal as functions, witnessed at
`/work/foo_tag.java`. -/
theorem C10_heuristic_refinement :
    (∀ p, isLikelyGeneratedJspServletSourceRewriter p = true →
      isLikelyGeneratedJspServletSourceTranslator p = true) ∧
    (∀ p, (isLikelyGeneratedJspServletSourceTranslator p = true ∧
           isLikelyGeneratedJspServletSourceRewriter p = false) ↔
      (endsWithB (toLowerStr (normSlash p)) "_tag.java" = true ∧
       (infixOfB "/org/apache/jsp/".data (normSlash p).data &&
         endsWithB (normSlash p) ".java") = false ∧
       endsWithB (toLowerStr (normSlash p)) "_jsp.java" = false)) ∧
    isLikelyGeneratedJspServletSourceTranslator "/work/foo_tag.java" = true ∧
    isLikelyGeneratedJspServletSourceRewriter "/work/foo_tag.java" = false := by
  refine ⟨?_, ?_, by decide, by decide⟩
  · intro p h
    unfold isLikelyGeneratedJspServletSourceRewriter at h
    unfold isLikelyGeneratedJspServletSourceTranslator
    by_cases h1 : (infixOfB "/org/apache/jsp/".data (normSlash p).data &&
        endsWithB (normSlash p) ".java") = true
    · simp [h1]
    · by_cases h2 : endsWithB (toLowerStr (normSlash p)) "_jsp.java" = true
      · simp [h1, h2]
      · simp [h1, h2] at h
  · intro p
    unfold isLikelyGeneratedJspServletSourceRewriter
    unfold isLikelyGeneratedJspServletSourceTranslator
    by_cases h1 : (infixOfB "/org/apache/jsp/".data (normSlash p).data &&
        endsWithB (normSlash p) ".java") = true
    · simp [h1]
    · by_cases h2 : endsWithB (toLowerStr (normSlash p)) "_jsp.java" = true
      · simp [h1, h2]
      · by_cases h3 : endsWithB (toLowerStr (normSlash p)) "_tag.java" = true
        · simp [h1, h2, h3]
        · simp [h1, h2, h3]

/-- Witness for C10: the inclusion applied at a package-path servlet source. -/
theorem C10_heuristic_refinement_witness :
    isLikelyGeneratedJspServletSourceTranslator "/work/org/apache/jsp/index_jsp.java" = true :=
  C10_heuristic_refinement.1 "/work/org/apache/jsp/index_jsp.java" (by decide)

/-- The per-indexed-line body of the parser's filterMap. -/
def markerOfLine (p : Nat × List Char) : Option TomcatJspMarker :=
  (matchMarkerLine p.2).map fun r => { javaLine := p.1 + 1, jspLine := r.1, jspFile := r.2 }

lemma parse_eq_filterMap (s : String) :
    parseTomcatGeneratedJavaMarkers s =
      ((splitLines s.data).enum).filterMap markerOfLine := rfl

lemma parse_aux_javaLine_lb (ls : List (List Char)) :
    ∀ (n : Nat) mk, mk ∈ (ls.enumFrom n).filterMap markerOfLine → n + 1 ≤ mk.javaLine := by
  induction ls with
  | nil => intro n mk h; simp at h
  | cons l t ih =>
    intro n mk h
    have hcons : (l :: t).enumFrom n = (n, l) :: t.enumFrom (n + 1) := rfl
    rw [hcons, List.filterMap_cons] at h
    cases hm : markerOfLine (n, l) with
    | none =>
      rw [hm] at h
      have := ih (n + 1) mk h
      omega
    | some mk0 =>
      rw [hm] at h
      rcases List.mem_cons.mp h with h1 | h1
      · subst h1
        simp only [markerOfLine] at hm
        cases hml : matchMarkerLine l with
        | none => rw [hml] at hm; cases hm
        | some r =>
          rw [hml] at hm
          injection hm with hm
          rw [← hm]
      · have := ih (n + 1) mk h1
        omega

lemma parse_aux_pairwise (ls : List (List Char)) :
    ∀ (n : Nat),
      List.Pairwise (fun a b => a.javaLine < b.javaLine)
        ((ls.enumFrom n).filterMap markerOfLine) := by
  induction ls with
  | nil => intro n; simp
  | cons l t ih =>
    intro n
    have hcons : (l :: t).enumFrom n = (n, l) :: t.enumFrom (n + 1) := rfl
    rw [hcons, List.filterMap_cons]
    cases hm : markerOfLine (n, l) with
    | none => exact ih (n + 1)
    | some mk0 =>
      refine List.Pairwise.cons ?_ (ih (n + 1))
      intro mk hmk
      have hlb := parse_aux_javaLine_lb t (n + 1) mk hmk
      simp only [markerOfLine] at hm
      cases hml : matchMarkerLine l with
      | none => rw [hml] at hm; cases hm
      | some r =>
        rw [hml] at hm
        injection hm with hm
        rw [← hm]
        simp only []
        omega

lemma parse_pairwise (s : String) :
    List.Pairwise (fun a b => a.javaLine < b.javaLine)
      (parseTomcatGeneratedJavaMarkers s) := by
  rw [parse_eq_filterMap]
  exact parse_aux_pairwise (splitLines s.data) 0

lemma filter_javaLine_le_one {l : List TomcatJspMarker}
    (h : List.Pairwise (fun a b => a.javaLine < b.javaLine) l) (n : Nat) :
    (l.filter fun mk => mk.javaLine == n).length ≤ 1 := by
  induction l with
  | nil => simp
  | cons a t ih =>
    have ha : ∀ mk ∈ t, a.javaLine < mk.javaLine := (List.pairwise_cons.mp h).1
    have ht := (List.pairwise_cons.mp h).2
    rw [List.filter_cons]
    by_cases heq : a.javaLine = n
    · have hnone : t.filter (fun mk => mk.javaLine == n) = [] := by
        rw [List.filter_eq_nil_iff]
        intro mk hmk
        have h2 := ha mk hmk
        simp only [beq_iff_eq]
        omega
      simp [heq, hnone]
    · rw [if_neg (by simp [heq])]
      exact ih ht

lemma findSome?_first_of_earlier_none {α β : Type} (f : α → Option β) :
    ∀ (l : List α) (k : Nat) (hk : k < l.length) (r : β),
      (∀ j (hj : j < l.length), j < k → f (l.get ⟨j, hj⟩) = none) →
      f (l.get ⟨k, hk⟩) = some r → List.findSome? f l = some r := by
  intro l
  induction l with
  | nil => intro k hk; simp at hk
  | cons a t ih =>
    intro k hk r hearlier hsome
    cases k with
    | zero =>
      rw [List.findSome?_cons]
      simp only [List.get] at hsome
      rw [hsome]
    | succ k' =>
      have ha : f a = none := hearlier 0 (by simp) (by omega)
      rw [List.findSome?_cons, ha]
      exact ih k' (by simpa using hk) r
        (fun j hj hjk => hearlier (j + 1) (by simpa using hj) (by omega)) hsome

/-- C9: `parseTomcatGeneratedJavaMarkers` is total by construction (a Lean
function; no exception path exists) and: an empty or irrelevant input yields
the empty list; marker `javaLine`s are strictly increasing in scan order
(hence sorted, and at most one marker per input line); per line, the first
pattern of the fixed ordered list that matches wins; and a line matched by no
pattern contributes no marker. -/
theorem C9_parser_total_ordered :
    parseTomcatGeneratedJavaMarkers "" = [] ∧
    parseTomcatGeneratedJavaMarkers "public class X { int y; }" = [] ∧
    (∀ s, List.Pairwise (fun a b => a.javaLine < b.javaLine)
      (parseTomcatGeneratedJavaMarkers s)) ∧
    (∀ s n, ((parseTomcatGeneratedJavaMarkers s).filter
      fun mk => mk.javaLine == n).length ≤ 1) ∧
    (∀ cs, (∀ p ∈ markerPatterns, p cs = none) → matchMarkerLine cs = none) ∧
    (∀ cs k (hk : k < markerPatterns.length) r,
      (∀ j (hj : j < markerPatterns.length), j < k → (markerPatterns.get ⟨j, hj⟩) cs = none) →
      (markerPatterns.get ⟨k, hk⟩) cs = some r → matchMarkerLine cs = some r) := by
  refine ⟨by decide, by decide, parse_pairwise, ?_, ?_, ?_⟩
  · intro s n
    exact filter_javaLine_le_one (parse_pairwise s) n
  · intro cs hall
    exact List.findSome?_eq_none_iff.mpr fun p hp => hall p hp
  · intro cs k hk r hearlier hsome
    exact findSome?_first_of_earlier_none (fun p => p cs) markerPatterns k hk r
      (fun j hj hjk => hearlier j hj hjk) hsome

/-- Witness for C9: on the line `// 7` the first four patterns fail and the
fifth (bare-number) pattern wins, producing template line 7 with no file
reference. -/
theorem C9_parser_total_ordered_witness :
    matchMarkerLine "// 7".data = some (7, none) :=
  C9_parser_total_ordered.2.2.2.2.2 "// 7".data 4 (by decide) (7, none)
    (by decide) (by decide)

lemma lookupPending_erase_self (m : List (Nat × PendingSetBreakpoints)) (k : Nat) :
    lookupPending (erasePending m k) k = none := by
  induction m with
  | nil => rfl
  | cons kv t ih =>
    unfold erasePending at ih ⊢
    rw [List.filter_cons]
    by_cases h : kv.1 = k
    · rw [if_neg (by simp [h])]
      exact ih
    · rw [if_pos (by simp [h])]
      unfold lookupPending
      cases kv with
      | mk k' v => simp only [] at h ⊢
                   rw [if_neg h]
                   exact ih

lemma lookupPending_erase_other (m : List (Nat × PendingSetBreakpoints)) (k s : Nat)
    (h : s ≠ k) : lookupPending (erasePending m k) s = lookupPending m s := by
  induction m with
  | nil => rfl
  | cons kv t ih =>
    unfold erasePending at ih ⊢
    rw [List.filter_cons]
    cases kv with
    | mk k' v =>
      by_cases h2 : k' = k
      · rw [if_neg (by simp [h2])]
        have hrhs : lookupPending ((k', v) :: t) s = lookupPending t s := by
          show (if k' = s then some v else lookupPending t s) = lookupPending t s
          rw [if_neg (by omega)]
        rw [hrhs]
        exact ih
      · rw [if_pos (by simp [h2])]
        unfold lookupPending
        by_cases h3 : k' = s
        · rw [if_pos h3, if_pos h3]
        · rw [if_neg h3, if_neg h3]
          exact ih

/-- The condition under which `tryRewriteSetBreakpointsResponse` reaches its
per-breakpoint loop and the final deletion: a successful setBreakpoints
response with a matching pending translation, a non-empty breakpoints array,
and a non-empty marker list for the recorded generated file. -/
def responseConsumesPending (rm : String → Option (List TomcatJspMarker))
    (message : SetBreakpointsResponse)
    (pending : List (Nat × PendingSetBreakpoints)) : Prop :=
  message.type = "response" ∧ message.command = "setBreakpoints" ∧
  message.success = true ∧
  ∃ requestSeq p bps markers,
    message.request_seq = some requestSeq ∧
    lookupPending pending requestSeq = some p ∧
    message.breakpoints = some bps ∧ bps ≠ [] ∧
    rm p.generatedJavaPath = some markers ∧ markers ≠ []

/-- C3 (amended): the pending translation for a request sequence number is
deleted exactly when the correlated response passes all the guards of
`tryRewriteSetBreakpointsResponse` — a successful setBreakpoints response
with a non-empty breakpoints array whose recorded generated file yields a
non-empty marker list.  Then it is deleted no matter how the per-breakpoint
mapping goes (the oracles are arbitrary), and no other key is touched.
Conversely, whenever any guard fails — a failed response, a missing or empty
breakpoints array, an unreadable or empty marker list, or no matching
pending entry — the pending map is left completely unchanged. -/
theorem C3_pending_deletion (rm : String → Option (List TomcatJspMarker))
    (rp : String → Option String) (message : SetBreakpointsResponse)
    (pending : List (Nat × PendingSetBreakpoints)) :
    (∀ requestSeq p bps markers,
      message.type = "response" → message.command = "setBreakpoints" →
      message.success = true → message.request_seq = some requestSeq →
      lookupPending pending requestSeq = some p →
      message.breakpoints = some bps → bps ≠ [] →
      rm p.generatedJavaPath = some markers → markers ≠ [] →
      (tryRewriteSetBreakpointsResponse rm rp message pending).2 =
        erasePending pending requestSeq ∧
      lookupPending (tryRewriteSetBreakpointsResponse rm rp message pending).2 requestSeq =
        none ∧
      (∀ s, s ≠ requestSeq →
        lookupPending (tryRewriteSetBreakpointsResponse rm rp message pending).2 s =
          lookupPending pending s)) ∧
    (¬ responseConsumesPending rm message pending →
      (tryRewriteSetBreakpointsResponse rm rp message pending).2 = pending) := by
  constructor
  · intro requestSeq p bps markers h1 h2 h3 h4 h5 h6 h7 h8 h9
    have hguard : ¬(message.type ≠ "response" ∨ message.command ≠ "setBreakpoints" ∨
        message.success = false) := by
      push_neg
      refine ⟨h1, h2, ?_⟩
      rw [h3]
      simp
    have hbpe : bps.isEmpty = false := by
      cases bps with
      | nil => exact absurd rfl h7
      | cons a t => rfl
    have hme : markers.isEmpty = false := by
      cases markers with
      | nil => exact absurd rfl h9
      | cons a t => rfl
    have hres : tryRewriteSetBreakpointsResponse rm rp message pending =
        ({ message with
            breakpoints := some (bps.map (processResponseBp rm rp p.generatedJavaPath markers)) },
          erasePending pending requestSeq) := by
      unfold tryRewriteSetBreakpointsResponse
      rw [if_neg hguard, h4]
      simp only [h5, h6, hbpe, h8, hme, Bool.false_eq_true, if_false]
    refine ⟨by rw [hres], ?_, ?_⟩
    · rw [hres]
      exact lookupPending_erase_self pending requestSeq
    · intro s hs
      rw [hres]
      exact lookupPending_erase_other pending requestSeq s hs
  · intro hnot
    unfold tryRewriteSetBreakpointsResponse
    split
    · rfl
    · rename_i hg
      push_neg at hg
      obtain ⟨hty, hcmd, hsf⟩ := hg
      have hsucc : message.success = true := by
        revert hsf
        cases message.success <;> simp
      split
      · rfl
      · rename_i requestSeq hrs
        split
        · rfl
        · rename_i p hlp
          split
          · rfl
          · rename_i bps hbp
            split
            · rfl
            · rename_i hbe
              split
              · rfl
              · rename_i markers hm
                split
                · rfl
                · rename_i hmemp
                  exfalso
                  apply hnot
                  refine ⟨hty, hcmd, hsucc, requestSeq, p, bps, markers,
                    hrs, hlp, hbp, ?_, hm, ?_⟩
                  · intro h
                    rw [h] at hbe
                    exact hbe rfl
                  · intro h
                    rw [h] at hmemp
                    exact hmemp rfl

/-- The concrete pending map of the C3 scenario. -/
def pendingExC3 : List (Nat × PendingSetBreakpoints) :=
  [(7, ⟨"/ws/index.jsp", "/ws/index.jsp", "/work/index_jsp.java"⟩)]

/-- A failed setBreakpoints response whose `request_seq` matches the
recorded pending translation. -/
def failedResponseC3 : SetBreakpointsResponse :=
  { type := "response", command := "setBreakpoints", success := false,
    request_seq := some 7, breakpoints := some [⟨some 15, none, none⟩] }

/-- C3 counterexample: a failed (`success = false`) setBreakpoints response
whose request sequence number matches a recorded pending translation does NOT
delete the entry — the handler returns before the deletion — contradicting
"deleted … regardless of whether the response succeeded".  The marker oracle
would let deletion proceed were the response successful (third conjunct), so
the retention is caused by the success guard alone.  The last two conjuncts
exhibit the other retention cases concretely: the successful twin with an
empty breakpoints array, and the successful twin whose recorded generated
file yields no markers, also leave the entry in place. -/
theorem C3_counterexample :
    (tryRewriteSetBreakpointsResponse
        (fun _ => some [⟨14, 3, some "/webapp/index.jsp"⟩])
        (fun _ => none) failedResponseC3 pendingExC3).2 = pendingExC3 ∧
    lookupPending pendingExC3 7 ≠ none ∧
    (tryRewriteSetBreakpointsResponse
        (fun _ => some [⟨14, 3, some "/webapp/index.jsp"⟩])
        (fun _ => none) { failedResponseC3 with success := true } pendingExC3).2 = [] ∧
    (tryRewriteSetBreakpointsResponse
        (fun _ => some [⟨14, 3, some "/webapp/index.jsp"⟩])
        (fun _ => none)
        { failedResponseC3 with success := true, breakpoints := some [] }
        pendingExC3).2 = pendingExC3 ∧
    (tryRewriteSetBreakpointsResponse (fun _ => none)
        (fun _ => none) { failedResponseC3 with success := true } pendingExC3).2 =
      pendingExC3 := by
  refine ⟨by decide, by decide, by decide, by decide, by decide⟩

/-- Witness for C3 (amended) at the concrete scenario: the successful twin of
the failed response consumes the pending entry, and the failed response —
which does not satisfy the consumption guards — retains it. -/
theorem C3_pending_deletion_witness :
    ((tryRewriteSetBreakpointsResponse
        (fun _ => some [⟨14, 3, some "/webapp/index.jsp"⟩]) (fun _ => none)
        { failedResponseC3 with success := true } pendingExC3).2 =
      erasePending pendingExC3 7 ∧
    lookupPending (tryRewriteSetBreakpointsResponse
        (fun _ => some [⟨14, 3, some "/webapp/index.jsp"⟩]) (fun _ => none)
        { failedResponseC3 with success := true } pendingExC3).2 7 = none) ∧
    (tryRewriteSetBreakpointsResponse
        (fun _ => some [⟨14, 3, some "/webapp/index.jsp"⟩]) (fun _ => none)
        failedResponseC3 pendingExC3).2 = pendingExC3 := by
  have h := (C3_pending_deletion
    (fun _ => some [⟨14, 3, some "/webapp/index.jsp"⟩]) (fun _ => none)
    { failedResponseC3 with success := true } pendingExC3).1 7
    ⟨"/ws/index.jsp", "/ws/index.jsp", "/work/index_jsp.java"⟩
    [⟨some 15, none, none⟩] [⟨14, 3, some "/webapp/index.jsp"⟩]
    rfl rfl rfl rfl (by decide) rfl (by decide) rfl (by decide)
  have h2 := (C3_pending_deletion
    (fun _ => some [⟨14, 3, some "/webapp/index.jsp"⟩]) (fun _ => none)
    failedResponseC3 pendingExC3).2
    (by
      rintro ⟨_, _, hsucc, _⟩
      exact absurd hsucc (by decide))
  exact ⟨⟨h.1, h.2.1⟩, h2⟩

lemma rewriteFrame_fail_id (rm : String → Bool → Option (List TomcatJspMarker))
    (rp : String → Option String) (f : StackFrame) (seen : List String)
    (hfail : ∀ b, frameRewriteFails rm rp f b) :
    (rewriteFrame rm rp f seen).1 = f := by
  cases hsp : f.sourcePath with
  | none => simp [rewriteFrame, hsp]
  | some sp =>
    cases hline : f.line with
    | none => simp [rewriteFrame, hsp, hline]
    | some L =>
      by_cases hemp : sp = ""
      · simp [rewriteFrame, hsp, hline, hemp]
      · by_cases hlik : isLikelyGeneratedJspServletSourceRewriter sp = true
        case neg =>
          simp [rewriteFrame, hsp, hline, hemp, hlik]
        case pos =>
          cases hrm : rm sp (!decide (sp ∈ seen)) with
          | none => simp [rewriteFrame, hsp, hline, hemp, hlik, hrm]
          | some ms =>
            cases ms with
            | nil => simp [rewriteFrame, hsp, hline, hemp, hlik, hrm]
            | cons m0 mt =>
              cases hmap : mapJavaLineToJsp (m0 :: mt) L with
              | none => simp [rewriteFrame, hsp, hline, hemp, hlik, hrm, hmap]
              | some pr =>
                obtain ⟨jl, jf⟩ := pr
                cases jf with
                | none => simp [rewriteFrame, hsp, hline, hemp, hlik, hrm, hmap]
                | some ref =>
                  by_cases href : ref = ""
                  · simp [rewriteFrame, hsp, hline, hemp, hlik, hrm, hmap, href]
                  · cases hrp : rp ref with
                    | none =>
                      simp [rewriteFrame, hsp, hline, hemp, hlik, hrm, hmap, href, hrp]
                    | some path =>
                      exfalso
                      rcases hfail (!decide (sp ∈ seen)) with
                        h | h | h | ⟨sp', h1, h2⟩ | ⟨sp', h1, h2⟩ | ⟨sp', h1, h2⟩ |
                        ⟨sp', ms', L', h1, h2, h3, h4⟩ | ⟨sp', ms', L', jl', h1, h2, h3, h4⟩ |
                        ⟨sp', ms', L', jl', h1, h2, h3, h4⟩ |
                        ⟨sp', ms', L', jl', ref', h1, h2, h3, h4, h5⟩
                      · rw [hsp] at h; cases h
                      · rw [hsp] at h; injection h with h; exact hemp h
                      · rw [hline] at h; cases h
                      · rw [hsp] at h1; injection h1 with h1; subst h1
                        rw [hlik] at h2; cases h2
                      · rw [hsp] at h1; injection h1 with h1; subst h1
                        rw [hrm] at h2; cases h2
                      · rw [hsp] at h1; injection h1 with h1; subst h1
                        rw [hrm] at h2; injection h2 with h2; cases h2
                      · rw [hsp] at h1; injection h1 with h1; subst h1
                        rw [hrm] at h2; injection h2 with h2; subst h2
                        rw [hline] at h3; injection h3 with h3; subst h3
                        rw [hmap] at h4; cases h4
                      · rw [hsp] at h1; injection h1 with h1; subst h1
                        rw [hrm] at h2; injection h2 with h2; subst h2
                        rw [hline] at h3; injection h3 with h3; subst h3
                        rw [hmap] at h4; injection h4 with h4
                        injection h4 with h4a h4b; cases h4b
                      · rw [hsp] at h1; injection h1 with h1; subst h1
                        rw [hrm] at h2; injection h2 with h2; subst h2
                        rw [hline] at h3; injection h3 with h3; subst h3
                        rw [hmap] at h4; injection h4 with h4
                        injection h4 with h4a h4b
                        injection h4b with h4b
                        exact href h4b
                      · rw [hsp] at h1; injection h1 with h1; subst h1
                        rw [hrm] at h2; injection h2 with h2; subst h2
                        rw [hline] at h3; injection h3 with h3; subst h3
                        rw [hmap] at h4; injection h4 with h4
                        injection h4 with h4a h4b
                        injection h4b with h4b
                        rw [← h4b] at h5
                        rw [hrp] at h5
                        cases h5

lemma rewriteFramesGo_length (rm : String → Bool → Option (List TomcatJspMarker))
    (rp : String → Option String) :
    ∀ (frames : List StackFrame) (seen : List String),
      (rewriteFramesGo rm rp frames seen).length = frames.length := by
  intro frames
  induction frames with
  | nil => intro seen; rfl
  | cons f rest ih =>
    intro seen
    simp only [rewriteFramesGo, List.length_cons]
    simp [ih]

lemma rewriteFramesGo_fail_getElem (rm : String → Bool → Option (List TomcatJspMarker))
    (rp : String → Option String) :
    ∀ (frames : List StackFrame) (seen : List String) (n : Nat) (f : StackFrame),
      frames.get? n = some f → (∀ b, frameRewriteFails rm rp f b) →
      (rewriteFramesGo rm rp frames seen).get? n = some f := by
  intro frames
  induction frames with
  | nil => intro seen n f h; simp at h
  | cons f0 rest ih =>
    intro seen n f h hfail
    simp only [rewriteFramesGo]
    cases n with
    | zero =>
      simp only [List.get?_cons_zero] at h ⊢
      injection h with h
      subst h
      rw [rewriteFrame_fail_id _ _ _ _ hfail]
    | succ n' =>
      simp only [List.get?_cons_succ] at h ⊢
      exact ih _ n' f h hfail

lemma rewriteFramesGo_all_fail_id (rm : String → Bool → Option (List TomcatJspMarker))
    (rp : String → Option String) :
    ∀ (frames : List StackFrame) (seen : List String),
      (∀ f ∈ frames, ∀ b, frameRewriteFails rm rp f b) →
      rewriteFramesGo rm rp frames seen = frames := by
  intro frames
  induction frames with
  | nil => intro seen _; rfl
  | cons f rest ih =>
    intro seen hall
    simp only [rewriteFramesGo]
    rw [rewriteFrame_fail_id rm rp f seen (hall f (List.mem_cons_self f rest))]
    rw [ih _ fun f' hf' => hall f' (List.mem_cons_of_mem f hf')]

/-- C5: per frame of a successful stackTrace response, if any rewriting step
fails — missing/empty `source.path`, non-number `line`, heuristic miss, no or
empty markers, no floor mapping, absent/empty template ref, unresolved
template path — the frame keeps its original `source` and `line`; the frame
list keeps its length and each failing frame passes through at its position
while other frames are still processed; in particular, when every marker read
fails (paths that do not exist on disk) the whole frame list is returned
unchanged.  No error path exists: the rewriter is a total function. -/
theorem C5_stack_frame_fail_open
    (rm : String → Bool → Option (List TomcatJspMarker))
    (rp : String → Option String) :
    (∀ f seen, (∀ b, frameRewriteFails rm rp f b) → (rewriteFrame rm rp f seen).1 = f) ∧
    (∀ frames, (maybeRewriteStackTraceResponse rm rp frames).length = frames.length) ∧
    (∀ frames seen n f, frames.get? n = some f → (∀ b, frameRewriteFails rm rp f b) →
      (rewriteFramesGo rm rp frames seen).get? n = some f) ∧
    (∀ frames, (∀ f ∈ frames, ∀ b, frameRewriteFails rm rp f b) →
      maybeRewriteStackTraceResponse rm rp frames = frames) ∧
    ((∀ sp b, rm sp b = none) →
      ∀ frames, maybeRewriteStackTraceResponse rm rp frames = frames) := by
  refine ⟨rewriteFrame_fail_id rm rp,
    fun frames => rewriteFramesGo_length rm rp frames [],
    rewriteFramesGo_fail_getElem rm rp,
    fun frames hall => rewriteFramesGo_all_fail_id rm rp frames [] hall,
    ?_⟩
  intro hnone frames
  refine rewriteFramesGo_all_fail_id rm rp frames [] ?_
  intro f _ b
  cases hsp : f.sourcePath with
  | none => exact Or.inl hsp
  | some sp =>
    exact Or.inr (Or.inr (Or.inr (Or.inr (Or.inl ⟨sp, hsp, hnone sp b⟩))))

/-- Witness for C5: a frame whose compiled source cannot be read (the path
does not exist) passes through a stackTrace rewrite unchanged. -/
theorem C5_stack_frame_fail_open_witness :
    maybeRewriteStackTraceResponse (fun _ _ => none) (fun _ => none)
      [⟨some "/x/a_jsp.java", some "a_jsp.java", some 10⟩] =
      [⟨some "/x/a_jsp.java", some "a_jsp.java", some 10⟩] :=
  (C5_stack_frame_fail_open (fun _ _ => none) (fun _ => none)).2.2.2.2
    (fun _ _ => rfl) _

lemma eraseEntry_no_key (m : List (String × CacheEntry)) (k : String) :
    ∀ kv ∈ eraseEntry m k, kv.1 ≠ k := by
  intro kv hkv
  have := List.of_mem_filter hkv
  simpa using this

lemma eraseEntry_eq_of_no_key (m : List (String × CacheEntry)) (k : String)
    (h : lookupEntry m k = none) : eraseEntry m k = m := by
  induction m with
  | nil => rfl
  | cons kv t ih =>
    cases kv with
    | mk k' v =>
      unfold lookupEntry at h
      by_cases h2 : k' = k
      · rw [if_pos h2] at h; cases h
      · rw [if_neg h2] at h
        unfold eraseEntry at ih ⊢
        rw [List.filter_cons, if_pos (by simp [h2])]
        rw [ih h]

lemma eraseEntry_length_lt (m : List (String × CacheEntry)) (k : String) (e : CacheEntry)
    (h : lookupEntry m k = some e) : (eraseEntry m k).length + 1 ≤ m.length := by
  induction m with
  | nil => cases h
  | cons kv t ih =>
    cases kv with
    | mk k' v =>
      unfold lookupEntry at h
      unfold eraseEntry at ih ⊢
      rw [List.filter_cons]
      by_cases h2 : k' = k
      · rw [if_neg (by simp [h2])]
        have := List.length_filter_le (fun kv => kv.1 != k) t
        simp only [List.length_cons]
        omega
      · rw [if_pos (by simp [h2])]
        rw [if_neg h2] at h
        have := ih h
        simp only [List.length_cons]
        omega

lemma lookupEntry_append_no_key (l : List (String × CacheEntry)) (k : String) (e : CacheEntry)
    (h : ∀ kv ∈ l, kv.1 ≠ k) : lookupEntry (l ++ [(k, e)]) k = some e := by
  induction l with
  | nil => simp [lookupEntry]
  | cons kv t ih =>
    cases kv with
    | mk k' v =>
      have hne : k' ≠ k := h (k', v) (List.mem_cons_self _ _)
      show (if k' = k then some v else lookupEntry (t ++ [(k, e)]) k) = some e
      rw [if_neg hne]
      exact ih fun kv hkv => h kv (List.mem_cons_of_mem _ hkv)

lemma enforceMaxEntries_eq_drop :
    ∀ (m : List (String × CacheEntry)) (maxE : Nat),
      enforceMaxEntries m maxE = m.drop (m.length - maxE) := by
  intro m
  induction m with
  | nil => intro maxE; simp [enforceMaxEntries]
  | cons kv t ih =>
    intro maxE
    unfold enforceMaxEntries
    by_cases h : t.length + 1 ≤ maxE
    · rw [if_pos h]
      have : (kv :: t).length - maxE = 0 := by simp [List.length_cons]; omega
      rw [this, List.drop_zero]
    · rw [if_neg h]
      rw [ih maxE]
      have : (kv :: t).length - maxE = (t.length - maxE) + 1 := by
        simp [List.length_cons]; omega
      rw [this, List.drop_succ_cons]

lemma enforceMaxEntries_length_le (m : List (String × CacheEntry)) (maxE : Nat) :
    (enforceMaxEntries m maxE).length ≤ maxE := by
  rw [enforceMaxEntries_eq_drop]
  rw [List.length_drop]
  omega

lemma insert_lookup_self (m : List (String × CacheEntry)) (k : String) (e : CacheEntry)
    (maxE : Nat) (hmax : 1 ≤ maxE) :
    lookupEntry (enforceMaxEntries (touchEntry m k e) maxE) k = some e := by
  rw [enforceMaxEntries_eq_drop]
  unfold touchEntry
  have hlen : (eraseEntry m k ++ [(k, e)]).length = (eraseEntry m k).length + 1 := by
    simp
  have hD : (eraseEntry m k ++ [(k, e)]).length - maxE ≤ (eraseEntry m k).length := by
    omega
  rw [List.drop_append_of_le_length hD]
  apply lookupEntry_append_no_key
  intro kv hkv
  exact eraseEntry_no_key m k kv (List.mem_of_mem_drop hkv)

lemma markerCacheRead_stat_of (fs : FsModel) (now : Int) (st : MarkerCacheState)
    (path : String) (forceStat : Bool)
    (h : ∀ e, lookupEntry st.entries path = some e →
      (!forceStat && decide (0 < st.statDebounceMs) &&
        decide (now - e.lastStatCheckMs < st.statDebounceMs)) = false) :
    markerCacheRead fs now st path forceStat =
      markerCacheStatRead fs now st path (lookupEntry st.entries path) := by
  unfold markerCacheRead
  cases hl : lookupEntry st.entries path with
  | none => rfl
  | some e =>
    simp only [h e hl, Bool.false_eq_true, if_false]

/-- C6: on any stat-performing read (`forceStat`, or debounce elapsed, or a
zero debounce window), a cached entry whose inode differs from the fresh
stat's inode — both present — is replaced wholesale and the freshly parsed
markers are returned, regardless of `mtimeMs` and `size`. -/
theorem C6_inode_invalidation (fs : FsModel) (now : Int) (st : MarkerCacheState)
    (path : String) (forceStat : Bool) (e : CacheEntry) (file : FsFile) (i1 i2 : Nat)
    (hmax : 1 ≤ st.maxEntries)
    (hentry : lookupEntry st.entries path = some e)
    (hfile : fs path = some file)
    (hino1 : e.ino = some i1) (hino2 : file.stat.ino = some i2) (hne : i1 ≠ i2)
    (hstat : forceStat = true ∨ st.statDebounceMs = 0 ∨
      st.statDebounceMs ≤ now - e.lastStatCheckMs) :
    (markerCacheRead fs now st path forceStat).1 =
      some (parseTomcatGeneratedJavaMarkers file.content) ∧
    lookupEntry (markerCacheRead fs now st path forceStat).2.entries path =
      some { ino := file.stat.ino, mtimeMs := file.stat.mtimeMs, size := file.stat.size,
             markers := parseTomcatGeneratedJavaMarkers file.content,
             lastStatCheckMs := now } := by
  have hcond : ∀ e', lookupEntry st.entries path = some e' →
      (!forceStat && decide (0 < st.statDebounceMs) &&
        decide (now - e'.lastStatCheckMs < st.statDebounceMs)) = false := by
    intro e' he'
    rw [hentry] at he'
    injection he' with he'
    subst he'
    rcases hstat with h | h | h
    · rw [h]; rfl
    · simp [h]
    · have hd : decide (now - e.lastStatCheckMs < st.statDebounceMs) = false := by
        simp only [decide_eq_false_iff_not]
        omega
      rw [hd]
      simp
  rw [markerCacheRead_stat_of fs now st path forceStat hcond, hentry]
  have hff : fingerprintFresh e file.stat = false := by
    unfold fingerprintFresh
    rw [hino1, hino2]
    have : (some i1 = some i2) = False := by
      simp [hne]
    simp [hne]
  unfold markerCacheStatRead
  rw [hfile]
  simp only [hff, Bool.false_eq_true, if_false]
  refine ⟨by trivial, ?_⟩
  exact insert_lookup_self st.entries path _ st.maxEntries hmax

/-- The cached entry of the C6/C7 scenario: parsed from the original file,
inode 1. -/
def entryExC6 : CacheEntry :=
  { ino := some 1, mtimeMs := 100, size := 18,
    markers := [⟨1, 1, some "/a.jsp"⟩], lastStatCheckMs := 0 }

/-- The replacement file of the C6 scenario: identical `mtimeMs` and `size`,
but inode 2 (an atomic rename-over) and different marker content. -/
def fileExC6 : FsFile :=
  { stat := { ino := some 2, mtimeMs := 100, size := 18 },
    content := "// line 2 \"/a.jsp\"" }

/-- Witness for C6: the atomic-replace scenario — identical mtime and size,
different inode — invalidates the entry and the freshly parsed markers come
back. -/
theorem C6_inode_invalidation_witness :
    (markerCacheRead (fun q => if q = "/w/a_jsp.java" then some fileExC6 else none) 7
      ⟨[("/w/a_jsp.java", entryExC6)], 10, 250⟩ "/w/a_jsp.java" true).1 =
      some (parseTomcatGeneratedJavaMarkers fileExC6.content) ∧
    lookupEntry (markerCacheRead (fun q => if q = "/w/a_jsp.java" then some fileExC6 else none) 7
      ⟨[("/w/a_jsp.java", entryExC6)], 10, 250⟩ "/w/a_jsp.java" true).2.entries "/w/a_jsp.java" =
      some { ino := fileExC6.stat.ino, mtimeMs := fileExC6.stat.mtimeMs,
             size := fileExC6.stat.size,
             markers := parseTomcatGeneratedJavaMarkers fileExC6.content,
             lastStatCheckMs := 7 } :=
  C6_inode_invalidation (fun q => if q = "/w/a_jsp.java" then some fileExC6 else none) 7
    ⟨[("/w/a_jsp.java", entryExC6)], 10, 250⟩ "/w/a_jsp.java" true entryExC6 fileExC6 1 2
    (by decide) (by decide) (by decide) (by decide) (by decide) (by decide)
    (Or.inl rfl)

/-- The original generated file of the C7 scenario (inode 1, mtime 100,
size 18). -/
def fileOrigC7 : FsFile :=
  { stat := { ino := some 1, mtimeMs := 100, size := 18 },
    content := "// line 1 \"/a.jsp\"" }

/-- The file after an in-place rewrite that preserves inode, mtime and size
but changes the marker content (same byte length). -/
def fileStaleC7 : FsFile :=
  { stat := { ino := some 1, mtimeMs := 100, size := 18 },
    content := "// line 2 \"/a.jsp\"" }

/-- The cache state after reading the original file once (shown reachable in
the counterexample itself). -/
def stExC7 : MarkerCacheState :=
  { entries := [("/w/a_jsp.java",
      { ino := some 1, mtimeMs := 100, size := 18,
        markers := [⟨1, 1, some "/a.jsp"⟩], lastStatCheckMs := 0 })],
    maxEntries := 10, statDebounceMs := 250 }

/-- C7 counterexample: after the file content changes without changing any
fingerprint component (`mtimeMs`, `size`, inode), a `forceStat: true` read
returns the stale cached markers, not markers parsed from the current
contents — so the read does not always reflect the current file contents.
The cache state is exactly the one produced by a real prior read of the
original file. -/
theorem C7_counterexample :
    stExC7 = (markerCacheRead (fun q => if q = "/w/a_jsp.java" then some fileOrigC7 else none) 0
      (mkMarkerCache (some 10) (some 250)) "/w/a_jsp.java" true).2 ∧
    (markerCacheRead (fun q => if q = "/w/a_jsp.java" then some fileStaleC7 else none) 7
      stExC7 "/w/a_jsp.java" true).1 = some [⟨1, 1, some "/a.jsp"⟩] ∧
    parseTomcatGeneratedJavaMarkers fileStaleC7.content = [⟨1, 2, some "/a.jsp"⟩] ∧
    ([(⟨1, 1, some "/a.jsp"⟩ : TomcatJspMarker)] : List TomcatJspMarker) ≠
      [⟨1, 2, some "/a.jsp"⟩] := by
  refine ⟨by decide, by decide, by decide, by decide⟩

/-- C7 (amended): with `forceStat: true` the read always performs the stat;
it returns markers parsed from the current file contents whenever no entry is
cached for the path or the cached fingerprint (`mtimeMs`, `size`, and inode
when present on both sides) differs from the fresh stat; when the fingerprint
matches, the cached markers are returned — which reflect the current contents
only if the content change is visible in the fingerprint. -/
theorem C7_forceStat_behavior (fs : FsModel) (now : Int) (st : MarkerCacheState)
    (path : String) (file : FsFile) (hfile : fs path = some file) :
    ((∀ e, lookupEntry st.entries path = some e → fingerprintFresh e file.stat = false) →
      (markerCacheRead fs now st path true).1 =
        some (parseTomcatGeneratedJavaMarkers file.content)) ∧
    (∀ e, lookupEntry st.entries path = some e → fingerprintFresh e file.stat = true →
      (markerCacheRead fs now st path true).1 = some e.markers) := by
  have hstat : markerCacheRead fs now st path true =
      markerCacheStatRead fs now st path (lookupEntry st.entries path) :=
    markerCacheRead_stat_of fs now st path true (fun e _ => rfl)
  rw [hstat]
  cases hl : lookupEntry st.entries path with
  | none =>
    constructor
    · intro _
      unfold markerCacheStatRead
      rw [hfile]
    · intro e he
      cases he
  | some e =>
    constructor
    · intro hmiss
      have hff := hmiss e rfl
      unfold markerCacheStatRead
      rw [hfile]
      simp only [hff, Bool.false_eq_true, if_false]
    · intro e' he' hfresh
      injection he' with he'
      subst he'
      unfold markerCacheStatRead
      rw [hfile]
      simp only [hfresh, if_true]

/-- Witness for C7 (amended): a forced read against a file whose `mtimeMs`
moved returns the freshly parsed markers, while a fingerprint-identical stat
returns the cached ones. -/
theorem C7_forceStat_behavior_witness :
    (markerCacheRead (fun q => if q = "/w/a_jsp.java"
        then some { stat := { ino := some 1, mtimeMs := 200, size := 18 },
                    content := "// line 2 \"/a.jsp\"" } else none) 7
      stExC7 "/w/a_jsp.java" true).1 =
      some (parseTomcatGeneratedJavaMarkers "// line 2 \"/a.jsp\"") := by
  have h := (C7_forceStat_behavior
    (fun q => if q = "/w/a_jsp.java"
      then some { stat := { ino := some 1, mtimeMs := 200, size := 18 },
                  content := "// line 2 \"/a.jsp\"" } else none) 7 stExC7
    "/w/a_jsp.java"
    { stat := { ino := some 1, mtimeMs := 200, size := 18 },
      content := "// line 2 \"/a.jsp\"" } (by decide)).1
  refine h ?_
  intro e he
  have hv : lookupEntry stExC7.entries "/w/a_jsp.java" =
      some { ino := some 1, mtimeMs := 100, size := 18,
             markers := [⟨1, 1, some "/a.jsp"⟩], lastStatCheckMs := 0 } := by decide
  rw [hv] at he
  injection he with he
  subst he
  decide

lemma touchEntry_length_le (m : List (String × CacheEntry)) (k : String)
    (e e' : CacheEntry) (h : lookupEntry m k = some e') :
    (touchEntry m k e).length ≤ m.length := by
  unfold touchEntry
  rw [List.length_append]
  have := eraseEntry_length_lt m k e' h
  simpa using this

/-- C8: (1) a marker-cache read preserves the entry bound and
(2) `updateOptions` restores it unconditionally; (3) inserting a new path into
a full cache evicts exactly the oldest (least-recently-touched) entry, keeping
every other entry in order and appending the new one at the most-recent end;
(4) a debounced hit skips the stat yet still moves the touched path to the
most-recent end; (5) a fingerprint-fresh stat hit — the other kind of cache
hit — likewise returns the cached markers and moves the path to the
most-recent end (with `lastStatCheckMs` refreshed). -/
theorem C8_lru_bound :
    (∀ (fs : FsModel) (now : Int) (st : MarkerCacheState) (path : String) (b : Bool),
      st.entries.length ≤ st.maxEntries →
      (markerCacheRead fs now st path b).2.entries.length ≤
        (markerCacheRead fs now st path b).2.maxEntries) ∧
    (∀ (st : MarkerCacheState) (m d : Option Int),
      (markerCacheUpdateOptions st m d).entries.length ≤
        (markerCacheUpdateOptions st m d).maxEntries) ∧
    (∀ (fs : FsModel) (now : Int) (st : MarkerCacheState) (path : String) (b : Bool)
        (file : FsFile),
      lookupEntry st.entries path = none → st.entries.length = st.maxEntries →
      1 ≤ st.maxEntries → fs path = some file →
      (markerCacheRead fs now st path b).2.entries =
        st.entries.tail ++ [(path,
          { ino := file.stat.ino, mtimeMs := file.stat.mtimeMs, size := file.stat.size,
            markers := parseTomcatGeneratedJavaMarkers file.content,
            lastStatCheckMs := now })]) ∧
    (∀ (fs : FsModel) (now : Int) (st : MarkerCacheState) (path : String) (e : CacheEntry),
      lookupEntry st.entries path = some e → 0 < st.statDebounceMs →
      now - e.lastStatCheckMs < st.statDebounceMs →
      (markerCacheRead fs now st path false).1 = some e.markers ∧
      (markerCacheRead fs now st path false).2.entries =
        eraseEntry st.entries path ++ [(path, e)]) ∧
    (∀ (fs : FsModel) (now : Int) (st : MarkerCacheState) (path : String) (b : Bool)
        (e : CacheEntry) (file : FsFile),
      lookupEntry st.entries path = some e → fs path = some file →
      fingerprintFresh e file.stat = true →
      (b = true ∨ st.statDebounceMs = 0 ∨ st.statDebounceMs ≤ now - e.lastStatCheckMs) →
      (markerCacheRead fs now st path b).1 = some e.markers ∧
      (markerCacheRead fs now st path b).2.entries =
        eraseEntry st.entries path ++ [(path, { e with lastStatCheckMs := now })]) := by
  refine ⟨?_, ?_, ?_, ?_, ?_⟩
  · intro fs now st path b hle
    unfold markerCacheRead
    cases hl : lookupEntry st.entries path with
    | none =>
      unfold markerCacheStatRead
      cases hf : fs path with
      | none => simpa using hle
      | some file => simpa using enforceMaxEntries_length_le _ _
    | some e =>
      by_cases hcond : (!b && decide (0 < st.statDebounceMs) &&
          decide (now - e.lastStatCheckMs < st.statDebounceMs)) = true
      · simp only [hcond, if_true]
        have := touchEntry_length_le st.entries path e e hl
        simpa using le_trans this hle
      · have hcond2 : (!b && decide (0 < st.statDebounceMs) &&
            decide (now - e.lastStatCheckMs < st.statDebounceMs)) = false :=
          Bool.eq_false_iff.mpr hcond
        simp only [hcond2, Bool.false_eq_true, if_false]
        unfold markerCacheStatRead
        cases hf : fs path with
        | none =>
          have := List.length_filter_le (fun kv => kv.1 != path) st.entries
          simp only [eraseEntry]
          simpa using le_trans this hle
        | some file =>
          by_cases hff : fingerprintFresh e file.stat = true
          · simp only [hff, if_true]
            have := touchEntry_length_le st.entries path
              { e with lastStatCheckMs := now } e hl
            simpa using le_trans this hle
          · have hff2 : fingerprintFresh e file.stat = false := Bool.eq_false_iff.mpr hff
            simp only [hff2, Bool.false_eq_true, if_false]
            simpa using enforceMaxEntries_length_le _ _
  · intro st m d
    unfold markerCacheUpdateOptions
    cases m <;> cases d <;>
      exact enforceMaxEntries_length_le _ _
  · intro fs now st path b file hnone hlen hmax hfile
    have hkey : enforceMaxEntries (touchEntry st.entries path
        { ino := file.stat.ino, mtimeMs := file.stat.mtimeMs, size := file.stat.size,
          markers := parseTomcatGeneratedJavaMarkers file.content,
          lastStatCheckMs := now }) st.maxEntries =
        st.entries.tail ++ [(path,
          { ino := file.stat.ino, mtimeMs := file.stat.mtimeMs, size := file.stat.size,
            markers := parseTomcatGeneratedJavaMarkers file.content,
            lastStatCheckMs := now })] := by
      unfold touchEntry
      rw [eraseEntry_eq_of_no_key st.entries path hnone]
      rw [enforceMaxEntries_eq_drop]
      have hlen2 : (st.entries ++ [(path,
          ({ ino := file.stat.ino, mtimeMs := file.stat.mtimeMs, size := file.stat.size,
             markers := parseTomcatGeneratedJavaMarkers file.content,
             lastStatCheckMs := now } : CacheEntry))]).length - st.maxEntries = 1 := by
        simp only [List.length_append, List.length_cons, List.length_nil]
        omega
      rw [hlen2]
      rw [List.drop_append_of_le_length (show 1 ≤ st.entries.length by omega)]
      rw [List.drop_one]
    unfold markerCacheRead
    simp only [hnone]
    unfold markerCacheStatRead
    simp only [hfile]
    exact hkey
  · intro fs now st path e hl hdeb hwin
    unfold markerCacheRead
    simp only [hl]
    have hcond : (!false && decide (0 < st.statDebounceMs) &&
        decide (now - e.lastStatCheckMs < st.statDebounceMs)) = true := by
      simp [hdeb, hwin]
    simp only [hcond, if_true]
    exact ⟨by trivial, rfl⟩
  · intro fs now st path b e file hl hf hfresh hstat
    have hcond : ∀ e', lookupEntry st.entries path = some e' →
        (!b && decide (0 < st.statDebounceMs) &&
          decide (now - e'.lastStatCheckMs < st.statDebounceMs)) = false := by
      intro e' he'
      rw [hl] at he'
      injection he' with he'
      subst he'
      rcases hstat with h | h | h
      · rw [h]; rfl
      · simp [h]
      · have hd : decide (now - e.lastStatCheckMs < st.statDebounceMs) = false := by
          simp only [decide_eq_false_iff_not]
          omega
        rw [hd]
        simp
    rw [markerCacheRead_stat_of fs now st path b hcond, hl]
    unfold markerCacheStatRead
    rw [hf]
    simp only [hfresh, if_true]
    exact ⟨by trivial, rfl⟩

/-- A full one-slot cache for the C8 eviction scenario. -/
def stFullC8 : MarkerCacheState :=
  { entries := [("/w/a_jsp.java", entryExC6)], maxEntries := 1, statDebounceMs := 0 }

/-- The second generated file of the C8 eviction scenario. -/
def fileBC8 : FsFile :=
  { stat := { ino := some 3, mtimeMs := 50, size := 18 },
    content := "// line 5 \"/b.jsp\"" }

/-- Witness for C8: inserting a second distinct path into a one-entry cache
evicts exactly the older path and appends the new entry at the most-recent
end; and a fingerprint-fresh forced stat hit returns the cached markers while
moving the path to the most-recent end. -/
theorem C8_lru_bound_witness :
    ((markerCacheRead (fun q => if q = "/w/b_jsp.java" then some fileBC8 else none) 3
      stFullC8 "/w/b_jsp.java" true).2.entries =
      stFullC8.entries.tail ++ [("/w/b_jsp.java",
        { ino := fileBC8.stat.ino, mtimeMs := fileBC8.stat.mtimeMs,
          size := fileBC8.stat.size,
          markers := parseTomcatGeneratedJavaMarkers fileBC8.content,
          lastStatCheckMs := 3 })]) ∧
    ((markerCacheRead (fun q => if q = "/w/a_jsp.java" then some fileOrigC7 else none) 9
      stExC7 "/w/a_jsp.java" true).1 = some entryExC6.markers ∧
    (markerCacheRead (fun q => if q = "/w/a_jsp.java" then some fileOrigC7 else none) 9
      stExC7 "/w/a_jsp.java" true).2.entries =
      eraseEntry stExC7.entries "/w/a_jsp.java" ++
        [("/w/a_jsp.java", { entryExC6 with lastStatCheckMs := 9 })]) :=
  ⟨C8_lru_bound.2.2.1 (fun q => if q = "/w/b_jsp.java" then some fileBC8 else none) 3
    stFullC8 "/w/b_jsp.java" true fileBC8 (by decide) (by decide) (by decide) (by decide),
   C8_lru_bound.2.2.2.2 (fun q => if q = "/w/a_jsp.java" then some fileOrigC7 else none) 9
    stExC7 "/w/a_jsp.java" true entryExC6 fileOrigC7 (by decide) (by decide) (by decide)
    (Or.inl rfl)⟩
